import Mathlib

set_option maxRecDepth 100000

/-!
Shallow embedding of the WheelPicker component (`src/wheel-picker.ts`).

Scroll offsets, pointer coordinates and velocities are modelled as rationals
(the source uses JS numbers; none of the verified claims depends on
floating-point rounding).  DOM rendering is dropped: `updateColumnTransform`
only writes CSS, so it is modelled by the pure projection `project`; the
element fields of columns are omitted.  The `requestAnimationFrame` queue is
modelled explicitly as a list of pending callbacks so that the cooperative
animation stepping of `animateToNearest` is observable.
-/

namespace WheelPicker

/-- A selectable column value: the source stores `(string | number)[]`. -/
inductive Val where
  | str (s : String)
  | num (z : ℤ)
deriving DecidableEq, Repr

/-- Auxiliary scan for `jsIndexOf`: index of the first occurrence of `v`. -/
def jsIndexOfAux (l : List Val) (v : Val) : Option ℕ :=
  match l with
  | [] => none
  | x :: xs => if x = v then some 0 else (jsIndexOfAux xs v).map (· + 1)

/-- Models JS `Array.prototype.indexOf`: first index of `v`, or `-1`. -/
def jsIndexOf (l : List Val) (v : Val) : ℤ :=
  match jsIndexOfAux l v with
  | some i => (i : ℤ)
  | none => -1

/-- Models a JS indexed read `l[i]` with a possibly negative or overflowing
index: `none` stands for `undefined`. -/
def jsGet (l : List Val) (i : ℤ) : Option Val :=
  if i < 0 then none else l.get? i.toNat

/-- Models `String(n).padStart(2, '0')` for the hour/minute value lists. -/
def pad2 (n : ℤ) : String :=
  if n < 10 then "0" ++ toString n else toString n

/-- Models `parseInt` on the nonempty all-digit strings that the hour and
minute columns hold (the only strings the source ever parses back). -/
def parseDec (s : String) : ℤ :=
  s.data.foldl (fun a c => a * 10 + ((c.toNat : ℤ) - 48)) 0

/-- Extracts the numeric payload of a value read `as number` by the source
(day and year columns always hold numbers). -/
def valNum : Option Val → Option ℤ
  | some (.num z) => some z
  | _ => none

/-- Models `parseInt(v as string)` on an hour/minute column read. -/
def valParse : Option Val → Option ℤ
  | some (.str s) => some (parseDec s)
  | some (.num z) => some z
  | none => none

/-- Gregorian leap-year rule, as implemented by the JS `Date` object. -/
def isLeapYear (y : ℤ) : Bool :=
  (y % 4 == 0 && y % 100 != 0) || y % 400 == 0

/-- Models `new Date(year, m + 1, 0).getDate()` — the number of days of the
0-based month `m` of `year` — for the month indices `0 ≤ m ≤ 11` that the
source passes it. -/
def daysInMonth (y m : ℤ) : ℕ :=
  if m = 1 then (if isLeapYear y then 29 else 28)
  else if m = 3 ∨ m = 5 ∨ m = 8 ∨ m = 10 then 30
  else 31

/-- The month texts produced by `toLocaleDateString(locale, {month:'long'})`
for the default `en-US` locale (locale formatting itself is an external
collaborator; only the values' identity matters to the picker logic). -/
def monthNames : List Val :=
  [.str "January", .str "February", .str "March", .str "April",
   .str "May", .str "June", .str "July", .str "August",
   .str "September", .str "October", .str "November", .str "December"]

/-- The day column contents `1 .. n` built by the source. -/
def dayValues (n : ℕ) : List Val :=
  (List.range n).map (fun (i : ℕ) => .num ((i : ℤ) + 1))

/-- The year column contents `minYear .. maxYear` built by the source
(`Array.from({length: max - min + 1}, (_, i) => min + i)`). -/
def yearValues (yMin yMax : ℤ) : List Val :=
  (List.range (yMax - yMin + 1).toNat).map (fun (i : ℕ) => .num (yMin + (i : ℤ)))

/-- The hour column contents `"00" .. "23"`. -/
def hourValues : List Val :=
  (List.range 24).map (fun (i : ℕ) => .str (pad2 (i : ℤ)))

/-- The minute column contents `"00" .. "59"`. -/
def minuteValues : List Val :=
  (List.range 60).map (fun (i : ℕ) => .str (pad2 (i : ℤ)))

/-- The fixed `itemHeight = 40` of the source. -/
def itemHeight : ℚ := 40

/-- The fixed `visibleItems = 5` of the source. -/
def visibleItems : ℕ := 5

/-- Models JS `Math.round` (round half toward positive infinity). -/
def jsRound (x : ℚ) : ℤ := ⌊x + 1/2⌋

/-- The `format` option. -/
inductive Format where
  | date
  | datetime
  | time
deriving DecidableEq, Repr

/-- A JS `Date` object as observed through its getters; real `Date`s are
normalized, so `month ∈ [0,11]`, `day ∈ [1, daysInMonth year month]`,
`hour ∈ [0,23]`, `minute ∈ [0,59]` hold for every date a caller can pass. -/
structure ExtDate where
  year : ℤ
  month : ℤ
  day : ℤ
  hour : ℤ
  minute : ℤ
deriving DecidableEq, Repr

/-- A calendar-valid (normalized) JS date. -/
def ValidExtDate (d : ExtDate) : Prop :=
  0 ≤ d.month ∧ d.month < 12 ∧ 1 ≤ d.day ∧ d.day ≤ daysInMonth d.year d.month ∧
  0 ≤ d.hour ∧ d.hour < 24 ∧ 0 ≤ d.minute ∧ d.minute < 60

instance (d : ExtDate) : Decidable (ValidExtDate d) := by
  unfold ValidExtDate; infer_instance

/-- The provenance of the picker's `currentDate`: either a `Date` object
handed in from outside, or the raw arguments of an internal `new Date(...)`
composition (kept unnormalized so that an out-of-range argument list is
observable). `invalid` models an `Invalid Date` produced from an
`undefined` column read. -/
inductive DateExpr where
  | external (d : ExtDate)
  | fromYMD (y m d : ℤ)
  | fromYMDHM (y m d hh mm : ℤ)
  | nowWithHM (hh mm : ℤ)
  | invalid
deriving DecidableEq, Repr

/-- One wheel column (`WheelColumn` of the source, minus its DOM element). -/
structure WheelColumn where
  values : List Val
  selectedIndex : ℤ
  scrollTop : ℚ
  isScrolling : Bool
deriving DecidableEq, Repr

/-- The closure state of one scheduled `animate` callback: the column it
drives and the `nearestScrollTop` / `nearestIndex` captured at creation. -/
structure AnimCallback where
  columnIndex : ℕ
  nearestScrollTop : ℚ
  nearestIndex : ℤ
deriving DecidableEq, Repr

/-- The per-column closure variables of `attachColumnEvents`. -/
structure GestureState where
  startY : ℚ
  startScrollTop : ℚ
  momentumId : Option ℕ
  lastY : ℚ
  lastTime : ℤ
  velocity : ℚ
deriving DecidableEq, Repr

/-- Initial gesture closure state (`startY = 0`, `momentumId = null`, …). -/
def initGesture : GestureState :=
  { startY := 0, startScrollTop := 0, momentumId := none,
    lastY := 0, lastTime := 0, velocity := 0 }

/-- The whole picker state: the `WheelPicker` fields plus the per-column
gesture closures and the pending `requestAnimationFrame` queue. The
`onChangeLog` records every invocation of the `onChange` callback. -/
structure PickerState where
  format : Format
  columns : List WheelColumn
  currentDate : DateExpr
  gestures : List GestureState
  pending : List (ℕ × AnimCallback)
  nextFrameId : ℕ
  onChangeLog : List DateExpr
deriving DecidableEq, Repr

/-- Column placeholder for an out-of-range index read (the source only ever
indexes existing columns). -/
def defaultColumn : WheelColumn :=
  { values := [], selectedIndex := 0, scrollTop := 0, isScrolling := false }

/-- Reads `this.columns[i]`. -/
def getCol (s : PickerState) (i : ℕ) : WheelColumn :=
  (s.columns.get? i).getD defaultColumn

/-- Reads the gesture closure of column `i`. -/
def getGesture (s : PickerState) (i : ℕ) : GestureState :=
  (s.gestures.get? i).getD initGesture

/-- Applies `f` to the element at position `i`, leaving the rest unchanged. -/
def modifyIdx {α : Type} (f : α → α) : ℕ → List α → List α
  | _, [] => []
  | 0, x :: xs => f x :: xs
  | n + 1, x :: xs => x :: modifyIdx f n xs

/-- Replaces column `i` by `f` applied to it. -/
def modifyCol (cols : List WheelColumn) (i : ℕ) (f : WheelColumn → WheelColumn) :
    List WheelColumn :=
  modifyIdx f i cols

/-- Replaces gesture closure `i`. -/
def setGesture (gs : List GestureState) (i : ℕ) (g : GestureState) :
    List GestureState :=
  modifyIdx (fun _ => g) i gs

/-- The per-item visual transform computed by `updateColumnTransform`. -/
structure ItemTransform where
  translateY : ℚ
  scale : ℚ
  opacity : ℚ
  isCenterSlot : Bool
deriving DecidableEq, Repr

/-- The pure render projection of `updateColumnTransform`: per-item
`translateY`, `scale`, `opacity` and the `selected` class flag. -/
def project (itemIndex : ℕ) (scrollTop : ℚ) (h : ℚ) (visible : ℕ) : ItemTransform :=
  let offset : ℚ := (itemIndex : ℚ) * h - scrollTop
  let centerOffset : ℚ := offset - h * ((visible : ℚ) - 1) / 2
  let distance : ℚ := |centerOffset|
  { translateY := offset
    scale := max (7/10) (1 - distance / (h * 3))
    opacity := max (3/10) (1 - distance / (h * (5/2)))
    isCenterSlot := distance < h / 2 }

/-- The `distance` quantity of `updateColumnTransform` for one item. -/
def projDistance (itemIndex : ℕ) (scrollTop : ℚ) (h : ℚ) (visible : ℕ) : ℚ :=
  |(itemIndex : ℚ) * h - scrollTop - h * ((visible : ℚ) - 1) / 2|

/-- The body of `updateColumns`: recomputes `daysInMonth` from the selected
month and year and, when the day column length differs, regenerates the day
column and remaps its selection and scroll offset. -/
def updateColumns (s : PickerState) : PickerState :=
  if s.format = .date ∨ s.format = .datetime then
    let monthIndex := (getCol s 0).selectedIndex
    let yearCol := getCol s 2
    let year := (valNum (jsGet yearCol.values yearCol.selectedIndex)).getD 0
    let dim : ℕ := daysInMonth year monthIndex
    let dayCol := getCol s 1
    let currentDayValue := jsGet dayCol.values dayCol.selectedIndex
    if dayCol.values.length ≠ dim then
      let newIdx : ℤ :=
        match currentDayValue with
        | some (.num v) =>
          if v ≠ 0 ∧ v ≤ (dim : ℤ) then v - 1 else (dim : ℤ) - 1
        | _ => (dim : ℤ) - 1
      { s with columns := modifyCol s.columns 1 (fun c =>
          { c with values := dayValues dim, selectedIndex := newIdx,
                   scrollTop := (newIdx : ℚ) * itemHeight }) }
    else s
  else s

/-- The `new Date(...)` composition performed inside `onDateChange`,
recorded as raw constructor arguments. -/
def composeDate (s : PickerState) : DateExpr :=
  match s.format with
  | .time =>
    match valParse (jsGet (getCol s 0).values (getCol s 0).selectedIndex),
          valParse (jsGet (getCol s 1).values (getCol s 1).selectedIndex) with
    | some hh, some mm => .nowWithHM hh mm
    | _, _ => .invalid
  | .date =>
    match valNum (jsGet (getCol s 1).values (getCol s 1).selectedIndex),
          valNum (jsGet (getCol s 2).values (getCol s 2).selectedIndex) with
    | some d, some y => .fromYMD y (getCol s 0).selectedIndex d
    | _, _ => .invalid
  | .datetime =>
    match valNum (jsGet (getCol s 1).values (getCol s 1).selectedIndex),
          valNum (jsGet (getCol s 2).values (getCol s 2).selectedIndex),
          valParse (jsGet (getCol s 3).values (getCol s 3).selectedIndex),
          valParse (jsGet (getCol s 4).values (getCol s 4).selectedIndex) with
    | some d, some y, some hh, some mm =>
      .fromYMDHM y (getCol s 0).selectedIndex d hh mm
    | _, _, _, _ => .invalid

/-- The `onDateChange` handler: composes the new `Date` from the current
selections, stores it, then runs `updateColumns`, then invokes `onChange`
with the composed date (in exactly this source order). -/
def onDateChange (s : PickerState) : PickerState :=
  let newDate := composeDate s
  let s1 := { s with currentDate := newDate }
  let s2 := updateColumns s1
  { s2 with onChangeLog := s2.onChangeLog ++ [newDate] }

/-- The clamp-and-round preamble of `animateToNearest`: clamps the requested
target into `[0, (n-1) * itemHeight]` and yields
`(nearestIndex, nearestScrollTop)`. -/
def animTarget (n : ℕ) (target : ℚ) : ℤ × ℚ :=
  let maxScroll : ℚ := ((n : ℚ) - 1) * itemHeight
  let clamped : ℚ := max 0 (min maxScroll target)
  let idx := jsRound (clamped / itemHeight)
  (idx, (idx : ℚ) * itemHeight)

/-- The clamped target value of `animateToNearest`. -/
def clampedTarget (n : ℕ) (target : ℚ) : ℚ :=
  max 0 (min (((n : ℚ) - 1) * itemHeight) target)

/-- The terminal-step commit of `animate`: sets the column's offset to
`nearestScrollTop` and its `selectedIndex` to `nearestIndex`. -/
def commitColumn (s : PickerState) (cb : AnimCallback) : PickerState :=
  { s with columns := modifyCol s.columns cb.columnIndex (fun c =>
      { c with scrollTop := cb.nearestScrollTop,
               selectedIndex := cb.nearestIndex }) }

/-- A non-terminal step of `animate`: `scrollTop += diff * 0.15` and a new
frame is scheduled; the returned frame id is dropped on the floor (the
source never stores it into `momentumId`). -/
def bumpColumn (s : PickerState) (cb : AnimCallback) : PickerState :=
  let col := getCol s cb.columnIndex
  let diff := cb.nearestScrollTop - col.scrollTop
  { s with
      columns := modifyCol s.columns cb.columnIndex (fun c =>
        { c with scrollTop := c.scrollTop + diff * (3/20) }),
      pending := s.pending ++ [(s.nextFrameId, cb)],
      nextFrameId := s.nextFrameId + 1 }

/-- One execution of the `animate` closure body. -/
def runAnimStep (s : PickerState) (cb : AnimCallback) : PickerState :=
  let col := getCol s cb.columnIndex
  let diff := cb.nearestScrollTop - col.scrollTop
  if |diff| < 1/2 then onDateChange (commitColumn s cb)
  else bumpColumn s cb

/-- The `animateToNearest` entry point: computes the snap target and runs
the first `animate` step synchronously. -/
def animateToNearest (s : PickerState) (i : ℕ) (target : ℚ) : PickerState :=
  let t := animTarget (getCol s i).values.length target
  runAnimStep s ⟨i, t.2, t.1⟩

/-- Delivery of one `requestAnimationFrame` callback (FIFO). -/
def fireFrame (s : PickerState) : PickerState :=
  match s.pending with
  | [] => s
  | (_, cb) :: rest => runAnimStep { s with pending := rest } cb

/-- Removal of a frame id by `cancelAnimationFrame`. -/
def cancelFrame (pending : List (ℕ × AnimCallback)) (id : ℕ) :
    List (ℕ × AnimCallback) :=
  pending.filter (fun p => p.1 ≠ id)

/-- The `handleStart` closure of `attachColumnEvents`: cancels the frame
recorded in `momentumId` if any (the source never records one), records the
drag origin and marks the column as scrolling. -/
def handleStart (s : PickerState) (i : ℕ) (clientY : ℚ) (now : ℤ) : PickerState :=
  let g := getGesture s i
  let cancelled :=
    match g.momentumId with
    | some id => (cancelFrame s.pending id, { g with momentumId := none })
    | none => (s.pending, g)
  let col := getCol s i
  let g2 := { cancelled.2 with
      startY := clientY, startScrollTop := col.scrollTop,
      lastY := clientY, lastTime := now, velocity := 0 }
  { s with pending := cancelled.1,
           gestures := setGesture s.gestures i g2,
           columns := modifyCol s.columns i (fun c => { c with isScrolling := true }) }

/-- The `handleMove` closure: live drag offset update (unclamped) and
instantaneous velocity estimate. -/
def handleMove (s : PickerState) (i : ℕ) (clientY : ℚ) (now : ℤ) : PickerState :=
  if (getCol s i).isScrolling = false then s
  else
    let g := getGesture s i
    let newScrollTop := g.startScrollTop + (g.startY - clientY)
    let timeDelta := now - g.lastTime
    let v := if 0 < timeDelta then (g.lastY - clientY) / (timeDelta : ℚ) else g.velocity
    { s with
        gestures := setGesture s.gestures i
          { g with lastY := clientY, lastTime := now, velocity := v },
        columns := modifyCol s.columns i (fun c => { c with scrollTop := newScrollTop }) }

/-- The `handleEnd` closure: clears the dragging flag, projects the
momentum target `scrollTop + velocity * 20` and hands it to
`animateToNearest`. -/
def handleEnd (s : PickerState) (i : ℕ) : PickerState :=
  let s1 := { s with
      columns := modifyCol s.columns i (fun c => { c with isScrolling := false }) }
  let target := (getCol s1 i).scrollTop + (getGesture s1 i).velocity * 20
  animateToNearest s1 i target

/-- The `scrollToSelected` helper: snaps every column's offset to
`selectedIndex * itemHeight`. -/
def scrollToSelected (s : PickerState) : PickerState :=
  { s with columns := s.columns.map (fun c =>
      { c with scrollTop := (c.selectedIndex : ℚ) * itemHeight }) }

/-- The public `setDate`: stores the date, writes every column's
`selectedIndex` from the date's components (the year only when found in the
year column), snaps offsets, and runs `updateColumns`. -/
def setDate (s : PickerState) (d : ExtDate) : PickerState :=
  let s0 := { s with currentDate := .external d }
  let s1 :=
    match s0.format with
    | .time =>
      let hi := jsIndexOf (getCol s0 0).values (.str (pad2 d.hour))
      let mi := jsIndexOf (getCol s0 1).values (.str (pad2 d.minute))
      let cols1 := modifyCol s0.columns 0 (fun c => { c with selectedIndex := hi })
      let cols2 := modifyCol cols1 1 (fun c => { c with selectedIndex := mi })
      { s0 with columns := cols2 }
    | .date =>
      let yi := jsIndexOf (getCol s0 2).values (.num d.year)
      let cols1 := modifyCol s0.columns 0 (fun c => { c with selectedIndex := d.month })
      let cols2 := modifyCol cols1 1 (fun c => { c with selectedIndex := d.day - 1 })
      let cols3 := if 0 ≤ yi
        then modifyCol cols2 2 (fun c => { c with selectedIndex := yi })
        else cols2
      { s0 with columns := cols3 }
    | .datetime =>
      let yi := jsIndexOf (getCol s0 2).values (.num d.year)
      let hi := jsIndexOf (getCol s0 3).values (.str (pad2 d.hour))
      let mi := jsIndexOf (getCol s0 4).values (.str (pad2 d.minute))
      let cols1 := modifyCol s0.columns 0 (fun c => { c with selectedIndex := d.month })
      let cols2 := modifyCol cols1 1 (fun c => { c with selectedIndex := d.day - 1 })
      let cols3 := if 0 ≤ yi
        then modifyCol cols2 2 (fun c => { c with selectedIndex := yi })
        else cols2
      let cols4 := modifyCol cols3 3 (fun c => { c with selectedIndex := hi })
      let cols5 := modifyCol cols4 4 (fun c => { c with selectedIndex := mi })
      { s0 with columns := cols5 }
  updateColumns (scrollToSelected s1)

/-- The public `getDate`: returns the stored `currentDate`. -/
def getDate (s : PickerState) : DateExpr := s.currentDate

/-- The `getColumnConfigs` construction helper: the `(values, selected)`
pairs for the configured format and initial date. -/
def columnConfigs (fmt : Format) (d : ExtDate) (yMin yMax : ℤ) :
    List (List Val × Val) :=
  (if fmt = .date ∨ fmt = .datetime then
    [(monthNames, (jsGet monthNames d.month).getD (.str "")),
     (dayValues (daysInMonth d.year d.month), .num d.day),
     (yearValues yMin yMax, .num d.year)]
   else []) ++
  (if fmt = .datetime ∨ fmt = .time then
    [(hourValues, .str (pad2 d.hour)), (minuteValues, .str (pad2 d.minute))]
   else [])

/-- Construction (`constructor` → `init` → `render` + `scrollToSelected` +
`updateColumns`): each column selects the position of its initial value, or
`0` when not found, and snaps its offset there. -/
def mkPicker (fmt : Format) (initialDate : ExtDate) (yMin yMax : ℤ) : PickerState :=
  let cols := (columnConfigs fmt initialDate yMin yMax).map (fun cfg =>
    let i := jsIndexOf cfg.1 cfg.2
    let si := if 0 ≤ i then i else 0
    { values := cfg.1, selectedIndex := si,
      scrollTop := (si : ℚ) * itemHeight, isScrolling := false })
  updateColumns
    { format := fmt, columns := cols, currentDate := .external initialDate,
      gestures := cols.map (fun _ => initGesture), pending := [],
      nextFrameId := 0, onChangeLog := [] }

/-- One public interaction event on the picker. -/
inductive PickerOp where
  | start (i : ℕ) (clientY : ℚ) (now : ℤ)
  | move (i : ℕ) (clientY : ℚ) (now : ℤ)
  | finish (i : ℕ)
  | frame
  | set (d : ExtDate)
deriving DecidableEq, Repr

/-- Interpretation of one event. -/
def applyOp (s : PickerState) : PickerOp → PickerState
  | .start i y t => handleStart s i y t
  | .move i y t => handleMove s i y t
  | .finish i => handleEnd s i
  | .frame => fireFrame s
  | .set d => setDate s d

/-- Interpretation of an event sequence. -/
def applyOps (s : PickerState) : List PickerOp → PickerState
  | [] => s
  | op :: ops => applyOps (applyOp s op) ops

/-- The pure settle recurrence of the `animate` loop: terminal snap when
`|diff| < 0.5`, else `currentOffset += diff * 0.15`. -/
def settleStep (nearest cur : ℚ) : ℚ :=
  if |nearest - cur| < 1/2 then nearest else cur + (nearest - cur) * (3/20)

/-- Iterated settle steps. -/
def settleIter (nearest cur : ℚ) : ℕ → ℚ
  | 0 => cur
  | n + 1 => settleIter nearest (settleStep nearest cur) n

/-! Basic lemmas about the list and index helpers. -/

theorem modifyIdx_nil {α : Type} (f : α → α) (i : ℕ) : modifyIdx f i [] = [] := by
  cases i <;> rfl

theorem modifyIdx_zero {α : Type} (f : α → α) (x : α) (xs : List α) :
    modifyIdx f 0 (x :: xs) = f x :: xs := rfl

theorem modifyIdx_succ {α : Type} (f : α → α) (n : ℕ) (x : α) (xs : List α) :
    modifyIdx f (n + 1) (x :: xs) = x :: modifyIdx f n xs := rfl

theorem length_modifyIdx {α : Type} (f : α → α) (i : ℕ) (l : List α) :
    (modifyIdx f i l).length = l.length := by
  induction l generalizing i with
  | nil => rw [modifyIdx_nil]
  | cons x xs ih =>
    cases i with
    | zero => rfl
    | succ n => simpa [modifyIdx_succ] using ih n

theorem get?_modifyIdx_self {α : Type} (f : α → α) (i : ℕ) (l : List α) :
    (modifyIdx f i l).get? i = (l.get? i).map f := by
  induction l generalizing i with
  | nil => rw [modifyIdx_nil]; rfl
  | cons x xs ih =>
    cases i with
    | zero => rfl
    | succ n => simpa [modifyIdx_succ] using ih n

theorem get?_modifyIdx_ne {α : Type} (f : α → α) {i j : ℕ} (l : List α)
    (h : j ≠ i) : (modifyIdx f i l).get? j = l.get? j := by
  induction l generalizing i j with
  | nil => rw [modifyIdx_nil]
  | cons x xs ih =>
    cases i with
    | zero => cases j with
      | zero => exact absurd rfl h
      | succ m => rfl
    | succ n =>
      cases j with
      | zero => rfl
      | succ m => simpa [modifyIdx_succ] using ih (fun hc => h (by omega))

theorem forall_mem_modifyIdx {α : Type} {p : α → Prop} {f : α → α} {l : List α}
    (h1 : ∀ x ∈ l, p x) (h2 : ∀ x ∈ l, p x → p (f x)) (i : ℕ) :
    ∀ x ∈ modifyIdx f i l, p x := by
  induction l generalizing i with
  | nil => intro x hx; rw [modifyIdx_nil] at hx; cases hx
  | cons y ys ih =>
    cases i with
    | zero =>
      intro x hx
      rcases List.mem_cons.1 hx with rfl | hx
      · exact h2 y (by simp) (h1 y (by simp))
      · exact h1 x (List.mem_cons_of_mem _ hx)
    | succ n =>
      intro x hx
      rcases List.mem_cons.1 hx with rfl | hx
      · exact h1 x (by simp)
      · exact ih (fun z hz => h1 z (List.mem_cons_of_mem _ hz))
          (fun z hz hp => h2 z (List.mem_cons_of_mem _ hz) hp) n x hx

theorem map_modifyIdx_invariant {α β : Type} (f : α → α) (g : α → β)
    (hf : ∀ x, g (f x) = g x) (i : ℕ) (l : List α) :
    (modifyIdx f i l).map g = l.map g := by
  induction l generalizing i with
  | nil => rw [modifyIdx_nil]
  | cons x xs ih =>
    cases i with
    | zero => simp [modifyIdx_zero, hf]
    | succ n => simp [modifyIdx_succ, ih n]

theorem modifyIdx_ge_length {α : Type} (f : α → α) {i : ℕ} {l : List α}
    (h : l.length ≤ i) : modifyIdx f i l = l := by
  induction l generalizing i with
  | nil => rw [modifyIdx_nil]
  | cons x xs ih =>
    cases i with
    | zero => simp at h
    | succ n => rw [modifyIdx_succ, ih (by simpa using h)]

theorem jsIndexOfAux_some_lt {l : List Val} {v : Val} {i : ℕ}
    (h : jsIndexOfAux l v = some i) : i < l.length := by
  induction l generalizing i with
  | nil => simp [jsIndexOfAux] at h
  | cons x xs ih =>
    by_cases hx : x = v
    · simp only [jsIndexOfAux, if_pos hx, Option.some.injEq] at h
      simp only [List.length_cons]
      omega
    · simp only [jsIndexOfAux, if_neg hx, Option.map_eq_some'] at h
      obtain ⟨j, hj, rfl⟩ := h
      have := ih hj
      simp only [List.length_cons]
      omega

theorem jsIndexOfAux_some_get {l : List Val} {v : Val} {i : ℕ}
    (h : jsIndexOfAux l v = some i) : l.get? i = some v := by
  induction l generalizing i with
  | nil => simp [jsIndexOfAux] at h
  | cons x xs ih =>
    by_cases hx : x = v
    · simp only [jsIndexOfAux, if_pos hx, Option.some.injEq] at h
      subst h
      simp [hx]
    · simp only [jsIndexOfAux, if_neg hx, Option.map_eq_some'] at h
      obtain ⟨j, hj, rfl⟩ := h
      simpa using ih hj

theorem jsIndexOfAux_of_mem {l : List Val} {v : Val} (h : v ∈ l) :
    ∃ i, jsIndexOfAux l v = some i := by
  induction l with
  | nil => cases h
  | cons x xs ih =>
    by_cases hx : x = v
    · exact ⟨0, by simp [jsIndexOfAux, hx]⟩
    · rcases List.mem_cons.1 h with rfl | h
      · exact absurd rfl hx
      · obtain ⟨i, hi⟩ := ih h
        exact ⟨i + 1, by simp [jsIndexOfAux, if_neg hx, hi]⟩

theorem jsIndexOf_of_aux_none {l : List Val} {v : Val}
    (h : jsIndexOfAux l v = none) : jsIndexOf l v = -1 := by
  unfold jsIndexOf
  rw [h]

theorem jsIndexOf_of_aux_some {l : List Val} {v : Val} {i : ℕ}
    (h : jsIndexOfAux l v = some i) : jsIndexOf l v = (i : ℤ) := by
  unfold jsIndexOf
  rw [h]

theorem jsIndexOf_lt_length (l : List Val) (v : Val) :
    jsIndexOf l v < (l.length : ℤ) := by
  cases h : jsIndexOfAux l v with
  | none =>
    rw [jsIndexOf_of_aux_none h]
    have : 0 ≤ (l.length : ℤ) := Int.ofNat_nonneg _
    omega
  | some i =>
    rw [jsIndexOf_of_aux_some h]
    exact_mod_cast jsIndexOfAux_some_lt h

theorem jsIndexOf_neg_one_le (l : List Val) (v : Val) : -1 ≤ jsIndexOf l v := by
  cases h : jsIndexOfAux l v with
  | none => rw [jsIndexOf_of_aux_none h]
  | some i =>
    rw [jsIndexOf_of_aux_some h]
    have : (0 : ℤ) ≤ i := Int.ofNat_nonneg _
    omega

theorem jsIndexOf_mem_nonneg {l : List Val} {v : Val} (h : v ∈ l) :
    0 ≤ jsIndexOf l v := by
  obtain ⟨i, hi⟩ := jsIndexOfAux_of_mem h
  rw [jsIndexOf_of_aux_some hi]
  exact Int.ofNat_nonneg _

theorem jsGet_natCast (l : List Val) (i : ℕ) : jsGet l (i : ℤ) = l.get? i := by
  unfold jsGet
  rw [if_neg (by omega)]
  simp

theorem jsGet_jsIndexOf {l : List Val} {v : Val} (h : 0 ≤ jsIndexOf l v) :
    jsGet l (jsIndexOf l v) = some v := by
  cases hi : jsIndexOfAux l v with
  | none => rw [jsIndexOf_of_aux_none hi] at h; omega
  | some i =>
    rw [jsIndexOf_of_aux_some hi, jsGet_natCast]
    exact jsIndexOfAux_some_get hi

/-! Lemmas about the column value lists. -/

theorem length_dayValues (n : ℕ) : (dayValues n).length = n := by
  unfold dayValues
  rw [List.length_map, List.length_range]

theorem jsGet_dayValues {i : ℤ} {n : ℕ} (h1 : 0 ≤ i) (h2 : i < (n : ℤ)) :
    jsGet (dayValues n) i = some (.num (i + 1)) := by
  obtain ⟨j, rfl⟩ := Int.eq_ofNat_of_zero_le h1
  have hj : j < n := by exact_mod_cast h2
  rw [jsGet_natCast]
  unfold dayValues
  rw [List.get?_eq_getElem?, List.getElem?_map, List.getElem?_range hj]
  rfl

theorem length_yearValues (yMin yMax : ℤ) :
    (yearValues yMin yMax).length = (yMax - yMin + 1).toNat := by
  unfold yearValues
  rw [List.length_map, List.length_range]

theorem jsGet_yearValues {yMin yMax i : ℤ} (h1 : 0 ≤ i)
    (h2 : i < ((yMax - yMin + 1).toNat : ℤ)) :
    jsGet (yearValues yMin yMax) i = some (.num (yMin + i)) := by
  obtain ⟨j, rfl⟩ := Int.eq_ofNat_of_zero_le h1
  have hj : j < (yMax - yMin + 1).toNat := by exact_mod_cast h2
  rw [jsGet_natCast]
  unfold yearValues
  rw [List.get?_eq_getElem?, List.getElem?_map, List.getElem?_range hj]
  rfl

theorem mem_yearValues {yMin yMax y : ℤ} (h1 : yMin ≤ y) (h2 : y ≤ yMax) :
    Val.num y ∈ yearValues yMin yMax := by
  unfold yearValues
  refine List.mem_map.2 ⟨(y - yMin).toNat, ?_, ?_⟩
  · exact List.mem_range.2 (by omega)
  · have : yMin + (((y - yMin).toNat : ℕ) : ℤ) = y := by omega
    rw [this]

theorem mem_hourValues {h : ℤ} (h1 : 0 ≤ h) (h2 : h < 24) :
    Val.str (pad2 h) ∈ hourValues := by
  unfold hourValues
  refine List.mem_map.2 ⟨h.toNat, ?_, ?_⟩
  · exact List.mem_range.2 (by omega)
  · have : ((h.toNat : ℕ) : ℤ) = h := by omega
    rw [this]

theorem mem_minuteValues {m : ℤ} (h1 : 0 ≤ m) (h2 : m < 60) :
    Val.str (pad2 m) ∈ minuteValues := by
  unfold minuteValues
  refine List.mem_map.2 ⟨m.toNat, ?_, ?_⟩
  · exact List.mem_range.2 (by omega)
  · have : ((m.toNat : ℕ) : ℤ) = m := by omega
    rw [this]

theorem length_monthNames : monthNames.length = 12 := rfl

theorem length_hourValues : hourValues.length = 24 := by
  unfold hourValues
  rw [List.length_map, List.length_range]

theorem length_minuteValues : minuteValues.length = 60 := by
  unfold minuteValues
  rw [List.length_map, List.length_range]

/-! Lemmas about the calendar helper. -/

theorem daysInMonth_pos (y m : ℤ) : 1 ≤ daysInMonth y m := by
  unfold daysInMonth
  split_ifs <;> omega

theorem daysInMonth_le (y m : ℤ) : daysInMonth y m ≤ 31 := by
  unfold daysInMonth
  split_ifs <;> omega

/-! Lemmas about JS rounding. -/

theorem jsRound_intCast (z : ℤ) : jsRound ((z : ℚ)) = z := by
  unfold jsRound
  rw [Int.floor_eq_iff]
  exact ⟨by linarith, by linarith⟩

theorem jsRound_nonneg {x : ℚ} (h : 0 ≤ x) : 0 ≤ jsRound x := by
  unfold jsRound
  refine Int.le_floor.2 ?_
  push_cast
  linarith

theorem jsRound_le {x : ℚ} {B : ℤ} (h : x ≤ (B : ℚ)) : jsRound x ≤ B := by
  unfold jsRound
  have : ⌊x + 1/2⌋ < B + 1 := Int.floor_lt.2 (by push_cast; linarith)
  omega

/-! Lemmas about state access through `modifyIdx`. -/

theorem getD_modifyIdx_self {α : Type} (d : α) (f : α → α) {i : ℕ} {l : List α}
    (h : i < l.length) :
    ((modifyIdx f i l).get? i).getD d = f ((l.get? i).getD d) := by
  rw [get?_modifyIdx_self]
  cases hl : l.get? i with
  | none =>
    rw [List.get?_eq_none] at hl
    omega
  | some x => simp

theorem getD_modifyIdx_ne {α : Type} (d : α) (f : α → α) {i j : ℕ} (l : List α)
    (h : j ≠ i) :
    ((modifyIdx f i l).get? j).getD d = (l.get? j).getD d := by
  rw [get?_modifyIdx_ne _ _ h]

/-! Lemmas about the momentum snap target. -/

theorem clampedTarget_nonneg (n : ℕ) (t : ℚ) : 0 ≤ clampedTarget n t :=
  le_max_left 0 _

theorem clampedTarget_le {n : ℕ} (hn : 1 ≤ n) (t : ℚ) :
    clampedTarget n t ≤ ((n : ℚ) - 1) * itemHeight := by
  unfold clampedTarget
  have hM : (0 : ℚ) ≤ ((n : ℚ) - 1) * itemHeight := by
    have : (1 : ℚ) ≤ (n : ℚ) := by exact_mod_cast hn
    have h40 : (0 : ℚ) ≤ itemHeight := by norm_num [itemHeight]
    nlinarith
  exact max_le hM (min_le_left _ _)

theorem animTarget_fst (n : ℕ) (t : ℚ) :
    (animTarget n t).1 = jsRound (clampedTarget n t / itemHeight) := rfl

theorem animTarget_snd (n : ℕ) (t : ℚ) :
    (animTarget n t).2 = (((animTarget n t).1 : ℤ) : ℚ) * itemHeight := rfl

theorem animTarget_idx_nonneg (n : ℕ) (t : ℚ) : 0 ≤ (animTarget n t).1 := by
  rw [animTarget_fst]
  refine jsRound_nonneg (div_nonneg (clampedTarget_nonneg n t) ?_)
  norm_num [itemHeight]

theorem animTarget_idx_lt {n : ℕ} (hn : 1 ≤ n) (t : ℚ) :
    (animTarget n t).1 < (n : ℤ) := by
  rw [animTarget_fst]
  have hle : clampedTarget n t / itemHeight ≤ (((n : ℤ) - 1 : ℤ) : ℚ) := by
    rw [div_le_iff₀ (by norm_num [itemHeight])]
    have := clampedTarget_le hn t
    push_cast
    linarith
  have := jsRound_le hle
  omega

/-- The nearest snap offset of a settled column is a fixed point of the
momentum target computation. -/
theorem animTarget_at_snap {n : ℕ} {idx : ℤ} (h0 : 0 ≤ idx) (h1 : idx < (n : ℤ)) :
    animTarget n ((idx : ℚ) * itemHeight) = (idx, (idx : ℚ) * itemHeight) := by
  have h40 : (0 : ℚ) < itemHeight := by norm_num [itemHeight]
  have hidx0 : (0 : ℚ) ≤ (idx : ℚ) := by exact_mod_cast h0
  have hle : (idx : ℚ) * itemHeight ≤ ((n : ℚ) - 1) * itemHeight := by
    have h' : (idx : ℚ) ≤ (n : ℚ) - 1 := by
      have hz : idx ≤ (n : ℤ) - 1 := by omega
      have hq : (idx : ℚ) ≤ (((n : ℤ) - 1 : ℤ) : ℚ) := Int.cast_le.2 hz
      push_cast at hq
      linarith
    nlinarith
  have hc : clampedTarget n ((idx : ℚ) * itemHeight) = (idx : ℚ) * itemHeight := by
    unfold clampedTarget
    rw [min_eq_right hle, max_eq_right (by positivity)]
  have hfst : (animTarget n ((idx : ℚ) * itemHeight)).1 = idx := by
    rw [animTarget_fst, hc, mul_div_assoc, div_self (by norm_num [itemHeight]), mul_one,
      jsRound_intCast]
  have hsnd := animTarget_snd n ((idx : ℚ) * itemHeight)
  rw [hfst] at hsnd
  exact Prod.ext hfst hsnd

/-! Lemmas about the settle recurrence. -/

theorem settleStep_of_terminal {nearest cur : ℚ} (h : |nearest - cur| < 1/2) :
    settleStep nearest cur = nearest := by
  unfold settleStep
  rw [if_pos h]

theorem settleStep_of_not_terminal {nearest cur : ℚ} (h : ¬ |nearest - cur| < 1/2) :
    settleStep nearest cur = cur + (nearest - cur) * (3/20) := by
  unfold settleStep
  rw [if_neg h]

theorem settle_decay (nearest : ℚ) (k : ℕ) :
    ∀ cur : ℚ, |nearest - settleIter nearest cur k| ≤
      (17/20 : ℚ) ^ k * |nearest - cur| := by
  induction k with
  | zero => intro cur; simp [settleIter]
  | succ m ih =>
    intro cur
    have step : |nearest - settleStep nearest cur| ≤ (17/20) * |nearest - cur| := by
      by_cases h : |nearest - cur| < 1/2
      · rw [settleStep_of_terminal h, sub_self, abs_zero]
        positivity
      · rw [settleStep_of_not_terminal h]
        have hd : nearest - (cur + (nearest - cur) * (3/20)) =
            (nearest - cur) * (17/20) := by ring
        rw [hd, abs_mul]
        rw [show |(17/20 : ℚ)| = 17/20 by norm_num]
        linarith [abs_nonneg (nearest - cur)]
    calc |nearest - settleIter nearest cur (m + 1)|
        = |nearest - settleIter nearest (settleStep nearest cur) m| := rfl
      _ ≤ (17/20 : ℚ) ^ m * |nearest - settleStep nearest cur| := ih _
      _ ≤ (17/20 : ℚ) ^ m * ((17/20) * |nearest - cur|) := by
          exact mul_le_mul_of_nonneg_left step (by positivity)
      _ = (17/20 : ℚ) ^ (m + 1) * |nearest - cur| := by ring

theorem settle_reaches_terminal (nearest cur : ℚ) :
    ∃ k, |nearest - settleIter nearest cur k| < 1/2 := by
  by_cases h0 : |nearest - cur| < 1/2
  · exact ⟨0, by simpa [settleIter] using h0⟩
  · have hpos : 0 < |nearest - cur| := by
      have := abs_nonneg (nearest - cur)
      by_contra hc
      push_neg at hc
      have : |nearest - cur| = 0 := le_antisymm hc this
      exact h0 (by rw [this]; norm_num)
    obtain ⟨k, hk⟩ := exists_pow_lt_of_lt_one
      (show (0 : ℚ) < (1/2) / |nearest - cur| by positivity)
      (show (17/20 : ℚ) < 1 by norm_num)
    refine ⟨k, lt_of_le_of_lt (settle_decay nearest k cur) ?_⟩
    calc (17/20 : ℚ) ^ k * |nearest - cur|
        < ((1/2) / |nearest - cur|) * |nearest - cur| :=
          mul_lt_mul_of_pos_right hk hpos
      _ = 1/2 := div_mul_cancel₀ _ (ne_of_gt hpos)

/-- Unfolded form of the render projection. -/
theorem project_eq (itemIndex : ℕ) (scrollTop h : ℚ) (visible : ℕ) :
    project itemIndex scrollTop h visible =
      { translateY := (itemIndex : ℚ) * h - scrollTop
        scale := max (7/10) (1 - projDistance itemIndex scrollTop h visible / (h * 3))
        opacity := max (3/10)
          (1 - projDistance itemIndex scrollTop h visible / (h * (5/2)))
        isCenterSlot := decide (projDistance itemIndex scrollTop h visible < h / 2) } :=
  rfl

/-- C7: For every item index, scroll offset, item height and visible-item
count, the render projection is the pure deterministic function with
`translateY = itemIndex*itemHeight - scrollOffset`,
`distance = |translateY - itemHeight*(visibleItemCount-1)/2|`,
`scale = max(0.7, 1 - distance/(itemHeight*3))`,
`opacity = max(0.3, 1 - distance/(itemHeight*2.5))` and
`isCenterSlot = (distance < itemHeight/2)`; at the exact center slot
`scale = 1`, `opacity = 1` and `isCenterSlot = true`; at distance
`≥ 3*itemHeight` `scale = 0.7`; at distance `≥ 2.5*itemHeight`
`opacity = 0.3`. -/
theorem C7_render_projection (itemIndex : ℕ) (scrollTop h : ℚ) (visible : ℕ)
    (hpos : 0 < h) :
    (project itemIndex scrollTop h visible).translateY
        = (itemIndex : ℚ) * h - scrollTop ∧
    projDistance itemIndex scrollTop h visible
        = |(project itemIndex scrollTop h visible).translateY
            - h * ((visible : ℚ) - 1) / 2| ∧
    (project itemIndex scrollTop h visible).scale
        = max (7/10) (1 - projDistance itemIndex scrollTop h visible / (h * 3)) ∧
    (project itemIndex scrollTop h visible).opacity
        = max (3/10) (1 - projDistance itemIndex scrollTop h visible / (h * (5/2))) ∧
    ((project itemIndex scrollTop h visible).isCenterSlot = true ↔
        projDistance itemIndex scrollTop h visible < h / 2) ∧
    (projDistance itemIndex scrollTop h visible = 0 →
        (project itemIndex scrollTop h visible).scale = 1 ∧
        (project itemIndex scrollTop h visible).opacity = 1 ∧
        (project itemIndex scrollTop h visible).isCenterSlot = true) ∧
    (3 * h ≤ projDistance itemIndex scrollTop h visible →
        (project itemIndex scrollTop h visible).scale = 7/10) ∧
    ((5/2) * h ≤ projDistance itemIndex scrollTop h visible →
        (project itemIndex scrollTop h visible).opacity = 3/10) := by
  rw [project_eq]
  refine ⟨rfl, rfl, rfl, rfl, by simp, ?_, ?_, ?_⟩
  · intro hd
    rw [hd]
    refine ⟨?_, ?_, ?_⟩
    · simp only [zero_div, sub_zero]
      exact max_eq_right (by norm_num)
    · simp only [zero_div, sub_zero]
      exact max_eq_right (by norm_num)
    · simp only [decide_eq_true_eq]
      positivity
  · intro hd
    simp only []
    have h3 : (0 : ℚ) < h * 3 := by positivity
    have : (1 : ℚ) ≤ projDistance itemIndex scrollTop h visible / (h * 3) := by
      rw [le_div_iff₀ h3]
      linarith
    exact max_eq_left (by linarith)
  · intro hd
    simp only []
    have h52 : (0 : ℚ) < h * (5/2) := by positivity
    have : (1 : ℚ) ≤ projDistance itemIndex scrollTop h visible / (h * (5/2)) := by
      rw [le_div_iff₀ h52]
      linarith
    exact max_eq_left (by linarith)

/-- Witness for C7 at the exact center slot of the source's configuration
(`itemHeight = 40`, `visibleItems = 5`, item 2 at offset 0). -/
theorem C7_render_projection_witness :
    (0 : ℚ) < 40 ∧
    ((project 2 0 40 5).translateY = (2 : ℚ) * 40 - 0 ∧
      projDistance 2 0 40 5 = |(project 2 0 40 5).translateY - 40 * ((5 : ℚ) - 1) / 2| ∧
      (project 2 0 40 5).scale = max (7/10) (1 - projDistance 2 0 40 5 / (40 * 3)) ∧
      (project 2 0 40 5).opacity = max (3/10) (1 - projDistance 2 0 40 5 / (40 * (5/2))) ∧
      ((project 2 0 40 5).isCenterSlot = true ↔ projDistance 2 0 40 5 < 40 / 2) ∧
      (projDistance 2 0 40 5 = 0 →
        (project 2 0 40 5).scale = 1 ∧ (project 2 0 40 5).opacity = 1 ∧
        (project 2 0 40 5).isCenterSlot = true) ∧
      (3 * 40 ≤ projDistance 2 0 40 5 → (project 2 0 40 5).scale = 7/10) ∧
      ((5/2) * 40 ≤ projDistance 2 0 40 5 → (project 2 0 40 5).opacity = 3/10)) :=
  ⟨by norm_num, C7_render_projection 2 0 40 5 (by norm_num)⟩

/-- C5: For every column with `N` values and every requested momentum target
`t`, the animator clamps `t` into `[0, (N-1)*itemHeight]`, computes
`nearestIndex = round(clamped/itemHeight)` and
`nearestOffset = nearestIndex * itemHeight`, and on a terminal step (when
`|nearestOffset - currentOffset| < 0.5`) it sets the column's offset to
exactly `nearestOffset` and commits `selectedIndex = nearestIndex` (after
which the date-change handler runs). -/
theorem C5_momentum_snap (s : PickerState) (i : ℕ) (t : ℚ)
    (hn : 1 ≤ (getCol s i).values.length) (hi : i < s.columns.length)
    (hterm : |(animTarget (getCol s i).values.length t).2 - (getCol s i).scrollTop|
        < 1/2) :
    0 ≤ clampedTarget (getCol s i).values.length t ∧
    clampedTarget (getCol s i).values.length t
        ≤ (((getCol s i).values.length : ℚ) - 1) * itemHeight ∧
    (animTarget (getCol s i).values.length t).1
        = jsRound (clampedTarget (getCol s i).values.length t / itemHeight) ∧
    (animTarget (getCol s i).values.length t).2
        = (((animTarget (getCol s i).values.length t).1 : ℤ) : ℚ) * itemHeight ∧
    animateToNearest s i t
        = runAnimStep s ⟨i, (animTarget (getCol s i).values.length t).2,
            (animTarget (getCol s i).values.length t).1⟩ ∧
    runAnimStep s ⟨i, (animTarget (getCol s i).values.length t).2,
        (animTarget (getCol s i).values.length t).1⟩
        = onDateChange (commitColumn s ⟨i, (animTarget (getCol s i).values.length t).2,
            (animTarget (getCol s i).values.length t).1⟩) ∧
    (getCol (commitColumn s ⟨i, (animTarget (getCol s i).values.length t).2,
        (animTarget (getCol s i).values.length t).1⟩) i).scrollTop
        = (animTarget (getCol s i).values.length t).2 ∧
    (getCol (commitColumn s ⟨i, (animTarget (getCol s i).values.length t).2,
        (animTarget (getCol s i).values.length t).1⟩) i).selectedIndex
        = (animTarget (getCol s i).values.length t).1 := by
  refine ⟨clampedTarget_nonneg _ t, clampedTarget_le hn t, animTarget_fst _ t,
    animTarget_snd _ t, rfl, ?_, ?_, ?_⟩
  · unfold runAnimStep
    rw [if_pos hterm]
  · unfold getCol commitColumn
    simp only [modifyCol]
    rw [getD_modifyIdx_self _ _ hi]
  · unfold getCol commitColumn
    simp only [modifyCol]
    rw [getD_modifyIdx_self _ _ hi]

/-- C6: Each non-terminal settle step (`currentOffset += diff * 0.15`)
multiplies `|diff|` by `0.85 < 1`, hence strictly decreases it, so the loop
reaches its terminal condition (`|diff| < 0.5`) after finitely many steps;
a zero initial diff is terminal at once and the step leaves the offset
unchanged. -/
theorem C6_settle_terminates (nearest cur : ℚ) :
    (¬ |nearest - cur| < 1/2 →
      |nearest - settleStep nearest cur| = (17/20) * |nearest - cur| ∧
      |nearest - settleStep nearest cur| < |nearest - cur|) ∧
    (nearest - cur = 0 →
      |nearest - cur| < 1/2 ∧ settleStep nearest cur = cur) ∧
    (∃ k, |nearest - settleIter nearest cur k| < 1/2) := by
  refine ⟨?_, ?_, settle_reaches_terminal nearest cur⟩
  · intro h
    have hstep := settleStep_of_not_terminal h
    have hd : nearest - (cur + (nearest - cur) * (3/20)) =
        (nearest - cur) * (17/20) := by ring
    have habs : |nearest - settleStep nearest cur| = (17/20) * |nearest - cur| := by
      rw [hstep, hd, abs_mul, show |(17/20 : ℚ)| = 17/20 by norm_num]
      ring
    refine ⟨habs, ?_⟩
    rw [habs]
    have hge : (1/2 : ℚ) ≤ |nearest - cur| := le_of_not_lt h
    linarith
  · intro h0
    have hnc : nearest = cur := by linarith
    have hlt : |nearest - cur| < 1/2 := by
      rw [h0, abs_zero]
      norm_num
    exact ⟨hlt, by rw [settleStep_of_terminal hlt, hnc]⟩

/-- Witness for C6 with a nonzero initial diff (`nearest = 40`, `cur = 0`)
and, via the second conjunct, the zero-diff case (`nearest = cur = 7`). -/
theorem C6_settle_terminates_witness :
    (¬ |(40 : ℚ) - 0| < 1/2) ∧
    (|40 - settleStep 40 (0 : ℚ)| = (17/20) * |(40 : ℚ) - 0| ∧
      |40 - settleStep 40 (0 : ℚ)| < |(40 : ℚ) - 0|) ∧
    (∃ k, |40 - settleIter 40 (0 : ℚ) k| < 1/2) ∧
    ((7 : ℚ) - 7 = 0) ∧
    (|(7 : ℚ) - 7| < 1/2 ∧ settleStep 7 (7 : ℚ) = 7) :=
  ⟨by norm_num,
   (C6_settle_terminates 40 0).1 (by norm_num),
   (C6_settle_terminates 40 0).2.2,
   by norm_num,
   (C6_settle_terminates 7 7).2.1 (by norm_num)⟩

/-! Field-preservation lemmas for the state operations. -/

theorem updateColumns_currentDate (s : PickerState) :
    (updateColumns s).currentDate = s.currentDate := by
  unfold updateColumns
  split_ifs
  · simp only []
    split_ifs <;> rfl
  · rfl

theorem updateColumns_onChangeLog (s : PickerState) :
    (updateColumns s).onChangeLog = s.onChangeLog := by
  unfold updateColumns
  split_ifs
  · simp only []
    split_ifs <;> rfl
  · rfl

theorem updateColumns_pending (s : PickerState) :
    (updateColumns s).pending = s.pending := by
  unfold updateColumns
  split_ifs
  · simp only []
    split_ifs <;> rfl
  · rfl

theorem updateColumns_format (s : PickerState) :
    (updateColumns s).format = s.format := by
  unfold updateColumns
  split_ifs
  · simp only []
    split_ifs <;> rfl
  · rfl

theorem scrollToSelected_currentDate (s : PickerState) :
    (scrollToSelected s).currentDate = s.currentDate := rfl

theorem scrollToSelected_onChangeLog (s : PickerState) :
    (scrollToSelected s).onChangeLog = s.onChangeLog := rfl

theorem setDate_currentDate (s : PickerState) (d : ExtDate) :
    (setDate s d).currentDate = .external d := by
  obtain ⟨fmt, cols, cd, gs, pend, nid, log⟩ := s
  cases fmt <;>
    simp [setDate, updateColumns_currentDate, scrollToSelected_currentDate]

theorem setDate_onChangeLog (s : PickerState) (d : ExtDate) :
    (setDate s d).onChangeLog = s.onChangeLog := by
  obtain ⟨fmt, cols, cd, gs, pend, nid, log⟩ := s
  cases fmt <;>
    simp [setDate, updateColumns_onChangeLog, scrollToSelected_onChangeLog]

theorem handleStart_onChangeLog (s : PickerState) (i : ℕ) (y : ℚ) (t : ℤ) :
    (handleStart s i y t).onChangeLog = s.onChangeLog := by
  unfold handleStart
  cases (getGesture s i).momentumId <;> rfl

theorem handleMove_onChangeLog (s : PickerState) (i : ℕ) (y : ℚ) (t : ℤ) :
    (handleMove s i y t).onChangeLog = s.onChangeLog := by
  unfold handleMove
  split_ifs <;> rfl

theorem commitColumn_onChangeLog (s : PickerState) (cb : AnimCallback) :
    (commitColumn s cb).onChangeLog = s.onChangeLog := rfl

theorem bumpColumn_onChangeLog (s : PickerState) (cb : AnimCallback) :
    (bumpColumn s cb).onChangeLog = s.onChangeLog := rfl

theorem onDateChange_onChangeLog (s : PickerState) :
    (onDateChange s).onChangeLog = s.onChangeLog ++ [composeDate s] := by
  unfold onDateChange
  simp only []
  rw [updateColumns_onChangeLog]

theorem runAnimStep_onChangeLog_of_terminal (s : PickerState) (cb : AnimCallback)
    (h : |cb.nearestScrollTop - (getCol s cb.columnIndex).scrollTop| < 1/2) :
    (runAnimStep s cb).onChangeLog
      = s.onChangeLog ++ [composeDate (commitColumn s cb)] := by
  unfold runAnimStep
  rw [if_pos h, onDateChange_onChangeLog, commitColumn_onChangeLog]

theorem runAnimStep_onChangeLog_of_not_terminal (s : PickerState) (cb : AnimCallback)
    (h : ¬ |cb.nearestScrollTop - (getCol s cb.columnIndex).scrollTop| < 1/2) :
    (runAnimStep s cb).onChangeLog = s.onChangeLog := by
  unfold runAnimStep
  rw [if_neg h, bumpColumn_onChangeLog]

/-- C9 (amended): `setDate(d)` stores the very `Date` object it was given, so
`getDate()` right after returns `d` itself with full precision — in
particular, date-only formats do not discard the time-of-day on this path. -/
theorem C9_amended_setDate_getDate (s : PickerState) (d : ExtDate) :
    getDate (setDate s d) = .external d :=
  setDate_currentDate s d

/-- C10: `setDate` never invokes `onChange` — it updates selections, snaps
offsets and stores the new date silently; `onChange` entries are produced
only by the momentum animator's terminal settle step, never by drag start,
drag move, or a non-terminal animation step. -/
theorem C10_setDate_silent (s s2 : PickerState) (d : ExtDate) (i : ℕ) (y : ℚ)
    (t : ℤ) (cb : AnimCallback) :
    (setDate s d).onChangeLog = s.onChangeLog ∧
    (handleStart s i y t).onChangeLog = s.onChangeLog ∧
    (handleMove s i y t).onChangeLog = s.onChangeLog ∧
    (¬ |cb.nearestScrollTop - (getCol s2 cb.columnIndex).scrollTop| < 1/2 →
      (runAnimStep s2 cb).onChangeLog = s2.onChangeLog) ∧
    (|cb.nearestScrollTop - (getCol s2 cb.columnIndex).scrollTop| < 1/2 →
      (runAnimStep s2 cb).onChangeLog
        = s2.onChangeLog ++ [composeDate (commitColumn s2 cb)]) :=
  ⟨setDate_onChangeLog s d, handleStart_onChangeLog s i y t,
   handleMove_onChangeLog s i y t,
   runAnimStep_onChangeLog_of_not_terminal s2 cb,
   runAnimStep_onChangeLog_of_terminal s2 cb⟩

/-! The day-regeneration remap of `updateColumns`, factored out. -/

/-- The new day `selectedIndex` computed by `updateColumns` when the day
column (contents `1..L`, current index `idx`) is regenerated to `D` days. -/
def regenIdx (L : ℕ) (idx : ℤ) (D : ℕ) : ℤ :=
  match jsGet (dayValues L) idx with
  | some (.num v) => if v ≠ 0 ∧ v ≤ (D : ℤ) then v - 1 else (D : ℤ) - 1
  | _ => (D : ℤ) - 1

theorem jsGet_dayValues_none {L : ℕ} {idx : ℤ} (h : (L : ℤ) ≤ idx) :
    jsGet (dayValues L) idx = none := by
  unfold jsGet
  rw [if_neg (by omega)]
  rw [List.get?_eq_none, length_dayValues]
  omega

theorem regenIdx_spec (L D : ℕ) (idx : ℤ) (h0 : 0 ≤ idx) :
    regenIdx L idx D =
      if idx < (L : ℤ) ∧ idx + 1 ≤ (D : ℤ) then idx else (D : ℤ) - 1 := by
  unfold regenIdx
  by_cases hiL : idx < (L : ℤ)
  · rw [jsGet_dayValues h0 hiL]
    simp only []
    by_cases h2 : idx + 1 ≤ (D : ℤ)
    · rw [if_pos ⟨by omega, h2⟩, if_pos ⟨hiL, h2⟩]
      omega
    · rw [if_neg (by tauto), if_neg (by tauto)]
  · rw [jsGet_dayValues_none (by omega)]
    simp only []
    rw [if_neg (by tauto)]

theorem regenIdx_bounds (L D : ℕ) (idx : ℤ) (h0 : 0 ≤ idx) (hD : 1 ≤ D) :
    0 ≤ regenIdx L idx D ∧ regenIdx L idx D < (D : ℤ) := by
  rw [regenIdx_spec L D idx h0]
  split_ifs with h
  · omega
  · omega

/-- Computed form of `updateColumns` on a well-shaped `date`/`datetime`
column list. -/
theorem updateColumns_eq (s : PickerState) (m dcol y : WheelColumn)
    (rest : List WheelColumn)
    (hfmt : s.format = .date ∨ s.format = .datetime)
    (hcols : s.columns = m :: dcol :: y :: rest)
    (L : ℕ) (hdv : dcol.values = dayValues L)
    (yv : ℤ) (hyv : valNum (jsGet y.values y.selectedIndex) = some yv) :
    updateColumns s =
      if L = daysInMonth yv m.selectedIndex then s
      else { s with columns := m ::
        { values := dayValues (daysInMonth yv m.selectedIndex)
          selectedIndex := regenIdx L dcol.selectedIndex (daysInMonth yv m.selectedIndex)
          scrollTop :=
            ((regenIdx L dcol.selectedIndex (daysInMonth yv m.selectedIndex) : ℤ) : ℚ)
              * itemHeight
          isScrolling := dcol.isScrolling } :: y :: rest } := by
  have hm : getCol s 0 = m := by simp [getCol, hcols]
  have hd : getCol s 1 = dcol := by simp [getCol, hcols]
  have hy : getCol s 2 = y := by simp [getCol, hcols]
  unfold updateColumns
  rw [if_pos hfmt]
  simp only [hm, hd, hy, hyv, hdv, length_dayValues, Option.getD_some]
  by_cases hC : L = daysInMonth yv m.selectedIndex
  · rw [if_neg (by simpa using hC), if_pos hC]
  · rw [if_pos hC, if_neg hC]
    rw [hcols]
    unfold modifyCol
    rw [modifyIdx_succ, modifyIdx_zero]
    unfold regenIdx
    rfl

/-- Behaviour of `updateColumns` on a well-shaped state: the day column ends
with exactly `daysInMonth` entries and an in-range remapped selection, and
the month and year columns are untouched. -/
theorem updateColumns_spec (s : PickerState) (m dcol y : WheelColumn)
    (rest : List WheelColumn)
    (hfmt : s.format = .date ∨ s.format = .datetime)
    (hcols : s.columns = m :: dcol :: y :: rest)
    (L : ℕ) (hdv : dcol.values = dayValues L)
    (yv : ℤ) (hyv : valNum (jsGet y.values y.selectedIndex) = some yv)
    (hd0 : 0 ≤ dcol.selectedIndex)
    (hLD : L = daysInMonth yv m.selectedIndex → dcol.selectedIndex < (L : ℤ)) :
    ∃ dcol', updateColumns s = { s with columns := m :: dcol' :: y :: rest } ∧
      dcol'.values = dayValues (daysInMonth yv m.selectedIndex) ∧
      0 ≤ dcol'.selectedIndex ∧
      dcol'.selectedIndex < (daysInMonth yv m.selectedIndex : ℤ) ∧
      dcol'.isScrolling = dcol.isScrolling ∧
      dcol'.selectedIndex =
        (if dcol.selectedIndex < (L : ℤ) ∧
            dcol.selectedIndex + 1 ≤ (daysInMonth yv m.selectedIndex : ℤ)
         then dcol.selectedIndex
         else (daysInMonth yv m.selectedIndex : ℤ) - 1) := by
  rw [updateColumns_eq s m dcol y rest hfmt hcols L hdv yv hyv]
  by_cases hC : L = daysInMonth yv m.selectedIndex
  · rw [if_pos hC]
    refine ⟨dcol, ?_, ?_, ?_, ?_, rfl, ?_⟩
    · rw [← hcols]
    · rw [hdv, hC]
    · exact hd0
    · have := hLD hC
      omega
    · have h1 := hLD hC
      rw [if_pos ⟨h1, by omega⟩]
  · rw [if_neg hC]
    have hD : 1 ≤ daysInMonth yv m.selectedIndex := daysInMonth_pos yv m.selectedIndex
    obtain ⟨hb0, hb1⟩ := regenIdx_bounds L (daysInMonth yv m.selectedIndex)
      dcol.selectedIndex hd0 hD
    exact ⟨_, rfl, rfl, hb0, hb1, rfl,
      regenIdx_spec L (daysInMonth yv m.selectedIndex) dcol.selectedIndex hd0⟩

/-- C4: After any month/year change, `updateColumns` leaves the day column
with exactly `daysInMonth(year, month)` entries (February 2024 → 29,
February 2023 → 28, April → 30, January → 31); the regenerated selection is
the previous day value when still present, else the largest value `≤` the
previous one (day 31 → 28 when switching to February of a non-leap year);
no error is raised, and the month and year columns are unchanged. -/
theorem C4_day_column_regeneration (s : PickerState) (m dcol y : WheelColumn)
    (rest : List WheelColumn)
    (hfmt : s.format = .date ∨ s.format = .datetime)
    (hcols : s.columns = m :: dcol :: y :: rest)
    (L : ℕ) (hdv : dcol.values = dayValues L)
    (dv : ℤ) (hsel : dcol.selectedIndex = dv - 1) (hdv1 : 1 ≤ dv)
    (hdvL : dv ≤ (L : ℤ))
    (yv : ℤ) (hyv : valNum (jsGet y.values y.selectedIndex) = some yv) :
    daysInMonth 2024 1 = 29 ∧ daysInMonth 2023 1 = 28 ∧
    daysInMonth yv 3 = 30 ∧ daysInMonth yv 0 = 31 ∧
    ∃ dcol', updateColumns s = { s with columns := m :: dcol' :: y :: rest } ∧
      dcol'.values.length = daysInMonth yv m.selectedIndex ∧
      dcol'.values = dayValues (daysInMonth yv m.selectedIndex) ∧
      jsGet dcol'.values dcol'.selectedIndex
        = some (.num (if dv ≤ (daysInMonth yv m.selectedIndex : ℤ) then dv
                      else (daysInMonth yv m.selectedIndex : ℤ))) := by
  refine ⟨by decide, by decide, by simp [daysInMonth], by simp [daysInMonth], ?_⟩
  obtain ⟨dcol', heq, hvals, h0, h1, hscroll, hidx⟩ :=
    updateColumns_spec s m dcol y rest hfmt hcols L hdv yv hyv
      (by omega) (fun _ => by omega)
  refine ⟨dcol', heq, by rw [hvals, length_dayValues], hvals, ?_⟩
  rw [hvals]
  set D := daysInMonth yv m.selectedIndex with hD
  rw [hsel] at hidx
  by_cases hle : dv ≤ (D : ℤ)
  · have : dcol'.selectedIndex = dv - 1 := by
      rw [hidx, if_pos ⟨by omega, by omega⟩]
    rw [this, jsGet_dayValues (by omega) (by omega), if_pos hle]
    congr 2
    omega
  · have : dcol'.selectedIndex = (D : ℤ) - 1 := by
      rw [hidx, if_neg (by omega)]
    have hDpos : 1 ≤ D := daysInMonth_pos yv m.selectedIndex
    rw [this, jsGet_dayValues (by omega) (by omega), if_neg hle]
    congr 2
    omega

/-! Helpers for reasoning about a drag-and-settle round trip. -/

theorem modifyIdx_modifyIdx {α : Type} (f g : α → α) (i : ℕ) (l : List α) :
    modifyIdx f i (modifyIdx g i l) = modifyIdx (fun x => f (g x)) i l := by
  induction l generalizing i with
  | nil => rw [modifyIdx_nil, modifyIdx_nil, modifyIdx_nil]
  | cons x xs ih =>
    cases i with
    | zero => rw [modifyIdx_zero, modifyIdx_zero, modifyIdx_zero]
    | succ n => rw [modifyIdx_succ, modifyIdx_succ, modifyIdx_succ, ih]

theorem modifyIdx_eq_self {α : Type} {f : α → α} {i : ℕ} {l : List α}
    (h : ∀ c, l.get? i = some c → f c = c) : modifyIdx f i l = l := by
  induction l generalizing i with
  | nil => rw [modifyIdx_nil]
  | cons x xs ih =>
    cases i with
    | zero => rw [modifyIdx_zero, h x rfl]
    | succ n =>
      rw [modifyIdx_succ, ih]
      intro c hc
      exact h c hc

theorem getCol_modifyCol (s : PickerState) (f : WheelColumn → WheelColumn)
    (i k : ℕ) :
    getCol { s with columns := modifyCol s.columns i f } k =
      if k = i ∧ k < s.columns.length then f (getCol s k) else getCol s k := by
  unfold getCol modifyCol
  simp only []
  by_cases hk : k = i
  · subst hk
    by_cases hl : k < s.columns.length
    · rw [if_pos ⟨rfl, hl⟩]
      exact getD_modifyIdx_self _ _ hl
    · rw [if_neg (by tauto), modifyIdx_ge_length _ (by omega)]
  · rw [if_neg (by tauto), getD_modifyIdx_ne _ _ _ hk]

theorem getD_setGesture_self (gs : List GestureState) (i : ℕ) (g : GestureState) :
    ((setGesture gs i g).get? i).getD initGesture =
      if i < gs.length then g else initGesture := by
  unfold setGesture
  by_cases h : i < gs.length
  · rw [if_pos h]
    exact getD_modifyIdx_self _ _ h
  · rw [if_neg h, modifyIdx_ge_length _ (by omega)]
    cases hg : gs.get? i with
    | none => rfl
    | some x =>
      rw [List.get?_eq_none.2 (by omega)] at hg
      cases hg

theorem handleStart_columns (s : PickerState) (i : ℕ) (y : ℚ) (t : ℤ) :
    (handleStart s i y t).columns =
      modifyCol s.columns i (fun c => { c with isScrolling := true }) := by
  unfold handleStart
  cases (getGesture s i).momentumId <;> rfl

theorem handleStart_format (s : PickerState) (i : ℕ) (y : ℚ) (t : ℤ) :
    (handleStart s i y t).format = s.format := by
  unfold handleStart
  cases (getGesture s i).momentumId <;> rfl

theorem handleStart_currentDate (s : PickerState) (i : ℕ) (y : ℚ) (t : ℤ) :
    (handleStart s i y t).currentDate = s.currentDate := by
  unfold handleStart
  cases (getGesture s i).momentumId <;> rfl

theorem handleStart_gestures (s : PickerState) (i : ℕ) (y : ℚ) (t : ℤ) :
    ∃ g2 : GestureState, (handleStart s i y t).gestures = setGesture s.gestures i g2
      ∧ g2.velocity = 0 := by
  unfold handleStart
  cases (getGesture s i).momentumId <;> exact ⟨_, rfl, rfl⟩

/-- The day column is already consistent with the selected month and year, so
`updateColumns` has nothing to regenerate. -/
def DaySynced (s : PickerState) : Prop :=
  s.format = .date ∨ s.format = .datetime →
    (getCol s 1).values.length =
      daysInMonth
        ((valNum (jsGet (getCol s 2).values (getCol s 2).selectedIndex)).getD 0)
        (getCol s 0).selectedIndex

theorem updateColumns_of_daySynced {s : PickerState} (h : DaySynced s) :
    updateColumns s = s := by
  unfold updateColumns
  by_cases hf : s.format = .date ∨ s.format = .datetime
  · rw [if_pos hf]
    simp only []
    rw [if_neg (by simpa using h hf)]
  · rw [if_neg hf]

theorem composeDate_congr (s s' : PickerState) (hf : s'.format = s.format)
    (hvals : ∀ k, (getCol s' k).values = (getCol s k).values)
    (hsel : ∀ k, (getCol s' k).selectedIndex = (getCol s k).selectedIndex) :
    composeDate s' = composeDate s := by
  unfold composeDate
  rw [hf]
  cases s.format <;> simp only [hvals, hsel]

theorem daySynced_congr (s s' : PickerState) (hf : s'.format = s.format)
    (hvals : ∀ k, (getCol s' k).values = (getCol s k).values)
    (hsel : ∀ k, (getCol s' k).selectedIndex = (getCol s k).selectedIndex)
    (h : DaySynced s) : DaySynced s' := by
  unfold DaySynced at h ⊢
  rw [hf, hvals 1, hvals 2, hsel 2, hsel 0]
  exact h

/-- C2 (amended): `onChange` fires exactly once per committed settle — at the
momentum animator's terminal step — regardless of whether the committed
selection changed the composed date: a drag with zero net displacement and
zero net velocity on a settled, day-synchronized column leaves every
column (in particular its `selectedIndex`) and the current date unchanged
but fires `onChange` exactly once (not zero times); live drag moves and
non-terminal animation steps never fire it. -/
theorem C2_amended_settle_fires_once (s : PickerState) (i : ℕ) (y y2 : ℚ)
    (t t2 : ℤ)
    (hi : i < s.columns.length)
    (h0 : 0 ≤ (getCol s i).selectedIndex)
    (h1 : (getCol s i).selectedIndex < ((getCol s i).values.length : ℤ))
    (hsnap : (getCol s i).scrollTop = (((getCol s i).selectedIndex : ℤ) : ℚ) * itemHeight)
    (hscr : (getCol s i).isScrolling = false)
    (hsync : DaySynced s)
    (hcur : s.currentDate = composeDate s) :
    (applyOps s [.start i y t, .finish i]).columns = s.columns ∧
    (applyOps s [.start i y t, .finish i]).currentDate = s.currentDate ∧
    (applyOps s [.start i y t, .finish i]).onChangeLog
      = s.onChangeLog ++ [s.currentDate] ∧
    (handleMove s i y2 t2).onChangeLog = s.onChangeLog ∧
    (∀ cb : AnimCallback,
      ¬ |cb.nearestScrollTop - (getCol s cb.columnIndex).scrollTop| < 1/2 →
      (runAnimStep s cb).onChangeLog = s.onChangeLog) := by
  obtain ⟨g2, hg2, hg2v⟩ := handleStart_gestures s i y t
  have hc1 : (handleStart s i y t).columns =
      modifyCol s.columns i (fun c => { c with isScrolling := true }) :=
    handleStart_columns s i y t
  have hci : s.columns.get? i = some (getCol s i) := by
    unfold getCol
    cases h : s.columns.get? i with
    | none => rw [List.get?_eq_none] at h; omega
    | some c => rfl
  have hfF : (fun c => { c with isScrolling := false }) (getCol s i) = getCol s i := by
    show ({ getCol s i with isScrolling := false } : WheelColumn) = getCol s i
    rw [← hscr]
  have hs2cols : modifyCol (handleStart s i y t).columns i
      (fun c => { c with isScrolling := false }) = s.columns := by
    rw [hc1]
    unfold modifyCol
    rw [modifyIdx_modifyIdx]
    exact modifyIdx_eq_self (fun c hc => by
      rw [hci] at hc
      injection hc with hc
      subst hc
      exact hfF)
  have hEnd : handleEnd (handleStart s i y t) i =
      animateToNearest { handleStart s i y t with columns := s.columns } i
        ((getCol { handleStart s i y t with columns := s.columns } i).scrollTop +
          (getGesture { handleStart s i y t with columns := s.columns } i).velocity
            * 20) := by
    unfold handleEnd
    simp only []
    rw [hs2cols]
  have hgc2 : ∀ k, getCol { handleStart s i y t with columns := s.columns } k
      = getCol s k := fun k => rfl
  have hvel : (getGesture { handleStart s i y t with columns := s.columns } i).velocity
      = 0 := by
    show (getGesture (handleStart s i y t) i).velocity = 0
    unfold getGesture
    rw [hg2, getD_setGesture_self]
    split_ifs
    · exact hg2v
    · rfl
  have htarget : (getCol { handleStart s i y t with columns := s.columns } i).scrollTop +
      (getGesture { handleStart s i y t with columns := s.columns } i).velocity * 20
      = (((getCol s i).selectedIndex : ℤ) : ℚ) * itemHeight := by
    rw [hgc2, hvel, hsnap]
    ring
  have hfmt2 : ({ handleStart s i y t with columns := s.columns } : PickerState).format
      = s.format := handleStart_format s i y t
  have hAnim : animateToNearest { handleStart s i y t with columns := s.columns } i
      ((((getCol s i).selectedIndex : ℤ) : ℚ) * itemHeight)
      = runAnimStep { handleStart s i y t with columns := s.columns }
          ⟨i, (((getCol s i).selectedIndex : ℤ) : ℚ) * itemHeight,
            (getCol s i).selectedIndex⟩ := by
    unfold animateToNearest
    simp only []
    rw [hgc2 i, animTarget_at_snap h0 h1]
  have hdiff0 : |(⟨i, (((getCol s i).selectedIndex : ℤ) : ℚ) * itemHeight,
        (getCol s i).selectedIndex⟩ : AnimCallback).nearestScrollTop -
      (getCol { handleStart s i y t with columns := s.columns }
        (⟨i, (((getCol s i).selectedIndex : ℤ) : ℚ) * itemHeight,
          (getCol s i).selectedIndex⟩ : AnimCallback).columnIndex).scrollTop| < 1/2 := by
    show |(((getCol s i).selectedIndex : ℤ) : ℚ) * itemHeight -
        (getCol s i).scrollTop| < 1/2
    rw [hsnap, sub_self, abs_zero]
    norm_num
  have hRun : runAnimStep { handleStart s i y t with columns := s.columns }
      ⟨i, (((getCol s i).selectedIndex : ℤ) : ℚ) * itemHeight,
        (getCol s i).selectedIndex⟩
      = onDateChange (commitColumn { handleStart s i y t with columns := s.columns }
          ⟨i, (((getCol s i).selectedIndex : ℤ) : ℚ) * itemHeight,
            (getCol s i).selectedIndex⟩) := by
    unfold runAnimStep
    rw [if_pos hdiff0]
  have hfix : modifyCol s.columns i (fun c =>
      { c with scrollTop := (((getCol s i).selectedIndex : ℤ) : ℚ) * itemHeight,
               selectedIndex := (getCol s i).selectedIndex }) = s.columns := by
    refine modifyIdx_eq_self ?_
    intro c hc
    rw [hci] at hc
    injection hc with hc
    subst hc
    rw [← hsnap]
  have hCommit : commitColumn { handleStart s i y t with columns := s.columns }
      ⟨i, (((getCol s i).selectedIndex : ℤ) : ℚ) * itemHeight,
        (getCol s i).selectedIndex⟩
      = { handleStart s i y t with columns := s.columns } := by
    unfold commitColumn
    simp only []
    rw [show modifyCol ({ handleStart s i y t with columns := s.columns
        } : PickerState).columns i (fun c =>
          { c with scrollTop := (((getCol s i).selectedIndex : ℤ) : ℚ) * itemHeight,
                   selectedIndex := (getCol s i).selectedIndex }) = s.columns from hfix]
  have hcd2 : composeDate { handleStart s i y t with columns := s.columns }
      = composeDate s :=
    composeDate_congr s _ hfmt2 (fun k => rfl) (fun k => rfl)
  have hsync3 : DaySynced { { handleStart s i y t with columns := s.columns
      } with currentDate := composeDate s } :=
    daySynced_congr s _ hfmt2 (fun k => rfl) (fun k => rfl) hsync
  have hODC : onDateChange { handleStart s i y t with columns := s.columns }
      = { handleStart s i y t with
          columns := s.columns
          currentDate := composeDate s
          onChangeLog := (handleStart s i y t).onChangeLog ++ [composeDate s] } := by
    unfold onDateChange
    simp only []
    rw [hcd2]
    rw [updateColumns_of_daySynced hsync3]
  have hfinal : applyOps s [.start i y t, .finish i]
      = { handleStart s i y t with
          columns := s.columns
          currentDate := composeDate s
          onChangeLog := (handleStart s i y t).onChangeLog ++ [composeDate s] } := by
    show handleEnd (handleStart s i y t) i = _
    rw [hEnd, htarget, hAnim, hRun, hCommit, hODC]
  refine ⟨?_, ?_, ?_, handleMove_onChangeLog s i y2 t2,
    fun cb hcb => runAnimStep_onChangeLog_of_not_terminal s cb hcb⟩
  · rw [hfinal]
  · rw [hfinal, ← hcur]
  · rw [hfinal]
    show (handleStart s i y t).onChangeLog ++ [composeDate s]
        = s.onChangeLog ++ [s.currentDate]
    rw [handleStart_onChangeLog, ← hcur]

/-! State well-formedness for the selection invariant (claim C8). -/

/-- The selection invariant of one column: `0 ≤ selectedIndex < len(values)`. -/
def ColWF (c : WheelColumn) : Prop :=
  0 ≤ c.selectedIndex ∧ c.selectedIndex < (c.values.length : ℤ)

/-- A day column always holds `1..L` for some `L ≥ 1`. -/
def dayShape (c : WheelColumn) : Prop :=
  ∃ L, 1 ≤ L ∧ c.values = dayValues L

/-- The column contents determined by the format (order and value lists are
fixed at construction; only the day column is ever regenerated). -/
def colsShape (fmt : Format) (yMin yMax : ℤ) (cols : List WheelColumn) : Prop :=
  match fmt with
  | .date => ∃ m d yr, cols = [m, d, yr] ∧ m.values = monthNames ∧
      dayShape d ∧ yr.values = yearValues yMin yMax
  | .datetime => ∃ m d yr hh mi, cols = [m, d, yr, hh, mi] ∧
      m.values = monthNames ∧ dayShape d ∧ yr.values = yearValues yMin yMax ∧
      hh.values = hourValues ∧ mi.values = minuteValues
  | .time => ∃ hh mi, cols = [hh, mi] ∧ hh.values = hourValues ∧
      mi.values = minuteValues

/-- A pending animation callback targets an index inside its column. -/
def pendOK (cols : List WheelColumn) (cb : AnimCallback) : Prop :=
  0 ≤ cb.nearestIndex ∧
  ∀ c, cols.get? cb.columnIndex = some c → cb.nearestIndex < (c.values.length : ℤ)

/-- Well-formedness of a picker state: fixed column shape, every selection in
range, every pending callback in range, and at most one pending frame. -/
structure WF (yMin yMax : ℤ) (s : PickerState) : Prop where
  shape : colsShape s.format yMin yMax s.columns
  sel : ∀ c ∈ s.columns, ColWF c
  pend : ∀ p ∈ s.pending, pendOK s.columns p.2
  pendOne : s.pending.length ≤ 1

theorem forall_mem_modifyIdx' {α : Type} {p : α → Prop} {f : α → α} {l : List α}
    {i : ℕ} (h1 : ∀ x ∈ l, p x) (h2 : ∀ c, l.get? i = some c → p (f c)) :
    ∀ x ∈ modifyIdx f i l, p x := by
  induction l generalizing i with
  | nil => intro x hx; rw [modifyIdx_nil] at hx; cases hx
  | cons y ys ih =>
    cases i with
    | zero =>
      intro x hx
      rcases List.mem_cons.1 hx with rfl | hx
      · exact h2 y rfl
      · exact h1 x (List.mem_cons_of_mem _ hx)
    | succ n =>
      intro x hx
      rcases List.mem_cons.1 hx with rfl | hx
      · exact h1 x (by simp)
      · exact ih (fun z hz => h1 z (List.mem_cons_of_mem _ hz))
          (fun c hc => h2 c (by simpa using hc)) x hx

theorem map_values_eq_two {cols' : List WheelColumn} {v1 v2 : List Val}
    (h : cols'.map (fun c => c.values) = [v1, v2]) :
    ∃ a b, cols' = [a, b] ∧ a.values = v1 ∧ b.values = v2 := by
  match cols', h with
  | [a, b], h =>
    simp only [List.map_cons, List.map_nil, List.cons.injEq, and_true] at h
    exact ⟨a, b, rfl, h.1, h.2⟩

theorem map_values_eq_three {cols' : List WheelColumn} {v1 v2 v3 : List Val}
    (h : cols'.map (fun c => c.values) = [v1, v2, v3]) :
    ∃ a b c, cols' = [a, b, c] ∧ a.values = v1 ∧ b.values = v2 ∧ c.values = v3 := by
  match cols', h with
  | [a, b, c], h =>
    simp only [List.map_cons, List.map_nil, List.cons.injEq, and_true] at h
    exact ⟨a, b, c, rfl, h.1, h.2.1, h.2.2⟩

theorem map_values_eq_five {cols' : List WheelColumn} {v1 v2 v3 v4 v5 : List Val}
    (h : cols'.map (fun c => c.values) = [v1, v2, v3, v4, v5]) :
    ∃ a b c d e, cols' = [a, b, c, d, e] ∧ a.values = v1 ∧ b.values = v2 ∧
      c.values = v3 ∧ d.values = v4 ∧ e.values = v5 := by
  match cols', h with
  | [a, b, c, d, e], h =>
    simp only [List.map_cons, List.map_nil, List.cons.injEq, and_true] at h
    exact ⟨a, b, c, d, e, rfl, h.1, h.2.1, h.2.2.1, h.2.2.2.1, h.2.2.2.2⟩

theorem colsShape_congr {fmt : Format} {yMin yMax : ℤ}
    {cols cols' : List WheelColumn}
    (h : cols'.map (fun c => c.values) = cols.map (fun c => c.values)) :
    colsShape fmt yMin yMax cols → colsShape fmt yMin yMax cols' := by
  intro hs
  cases fmt with
  | date =>
    obtain ⟨m, d, yr, rfl, hm, hd, hy⟩ := hs
    obtain ⟨L, hL, hdv⟩ := hd
    simp only [List.map_cons, List.map_nil] at h
    obtain ⟨a, b, c, rfl, ha, hb, hc⟩ := map_values_eq_three h
    exact ⟨a, b, c, rfl, ha.trans hm, ⟨L, hL, hb.trans hdv⟩, hc.trans hy⟩
  | datetime =>
    obtain ⟨m, d, yr, hh, mi, rfl, hm, hd, hy, hhh, hmi⟩ := hs
    obtain ⟨L, hL, hdv⟩ := hd
    simp only [List.map_cons, List.map_nil] at h
    obtain ⟨a, b, c, d2, e, rfl, ha, hb, hc, hd2, he⟩ := map_values_eq_five h
    exact ⟨a, b, c, d2, e, rfl, ha.trans hm, ⟨L, hL, hb.trans hdv⟩,
      hc.trans hy, hd2.trans hhh, he.trans hmi⟩
  | time =>
    obtain ⟨hh, mi, rfl, hhh, hmi⟩ := hs
    simp only [List.map_cons, List.map_nil] at h
    obtain ⟨a, b, rfl, ha, hb⟩ := map_values_eq_two h
    exact ⟨a, b, rfl, ha.trans hhh, hb.trans hmi⟩

theorem pendOK_congr {cols cols' : List WheelColumn}
    (h : cols'.map (fun c => c.values) = cols.map (fun c => c.values))
    {cb : AnimCallback} (hp : pendOK cols cb) : pendOK cols' cb := by
  refine ⟨hp.1, fun c hc => ?_⟩
  have hmap : (cols'.map (fun c => c.values)).get? cb.columnIndex
      = (cols.map (fun c => c.values)).get? cb.columnIndex := by rw [h]
  rw [List.get?_map, List.get?_map, hc] at hmap
  cases hco : cols.get? cb.columnIndex with
  | none => rw [hco] at hmap; cases hmap
  | some c0 =>
    rw [hco] at hmap
    have hv : c.values = c0.values := by
      simpa using hmap
    rw [hv]
    exact hp.2 c0 hco

/-- Transport of well-formedness along equal formats, columns and pending
queues (the other fields do not occur in `WF`). -/
theorem WF_congr {yMin yMax : ℤ} {s s' : PickerState}
    (h : WF yMin yMax s) (hf : s'.format = s.format) (hc : s'.columns = s.columns)
    (hp : s'.pending = s.pending) : WF yMin yMax s' := by
  refine ⟨?_, ?_, ?_, ?_⟩
  · rw [hf, hc]; exact h.shape
  · rw [hc]; exact h.sel
  · rw [hp, hc]; exact h.pend
  · rw [hp]; exact h.pendOne

/-! Preservation of well-formedness by each operation. -/

theorem WF_updateColumns {yMin yMax : ℤ} {s : PickerState}
    (h : WF yMin yMax s) (hp : s.pending = []) :
    WF yMin yMax (updateColumns s) := by
  by_cases hf : s.format = .date ∨ s.format = .datetime
  · have hsh := h.shape
    have core : ∀ (m dcol yr : WheelColumn) (rest : List WheelColumn),
        s.columns = m :: dcol :: yr :: rest →
        dayShape dcol → yr.values = yearValues yMin yMax →
        ∃ dcol', updateColumns s = { s with columns := m :: dcol' :: yr :: rest } ∧
          dayShape dcol' ∧ ColWF dcol' := by
      intro m dcol yr rest hcols hdS hyvals
      obtain ⟨L, hL, hdv⟩ := hdS
      have hyr : yr ∈ s.columns := by rw [hcols]; simp
      have hdm : dcol ∈ s.columns := by rw [hcols]; simp
      obtain ⟨hy0, hy1⟩ := h.sel yr hyr
      obtain ⟨hd0, hd1⟩ := h.sel dcol hdm
      rw [hyvals, length_yearValues] at hy1
      rw [hdv, length_dayValues] at hd1
      have hyv : valNum (jsGet yr.values yr.selectedIndex)
          = some (yMin + yr.selectedIndex) := by
        rw [hyvals, jsGet_yearValues hy0 hy1]
        rfl
      obtain ⟨dcol', heq, hvals, hb0, hb1, hscr2, hidx⟩ :=
        updateColumns_spec s m dcol yr rest hf hcols L hdv
          (yMin + yr.selectedIndex) hyv hd0 (fun _ => hd1)
      refine ⟨dcol', heq, ⟨_, daysInMonth_pos _ _, hvals⟩, hb0, ?_⟩
      rw [hvals, length_dayValues]
      exact hb1
    rcases hf with hfd | hfd
    all_goals {
      first
      | (obtain ⟨m, dcol, yr, hcols, hm, hdS, hyvals⟩ := by rw [hfd] at hsh; exact hsh
         obtain ⟨dcol', heq, hdS', hcw⟩ := core m dcol yr [] hcols hdS hyvals
         refine ⟨?_, ?_, ?_, ?_⟩
         · rw [updateColumns_format, hfd, heq]
           exact ⟨m, dcol', yr, rfl, hm, hdS', hyvals⟩
         · rw [heq]
           intro c hc
           simp only [List.mem_cons] at hc
           rcases hc with rfl | rfl | rfl | hc
           · exact h.sel c (by rw [hcols]; simp)
           · exact hcw
           · exact h.sel c (by rw [hcols]; simp)
           · cases hc
         · rw [updateColumns_pending, hp]
           intro p hp2
           cases hp2
         · rw [updateColumns_pending, hp]
           simp)
      | (obtain ⟨m, dcol, yr, hh, mi, hcols, hm, hdS, hyvals, hhv, hmv⟩ := by
           rw [hfd] at hsh; exact hsh
         obtain ⟨dcol', heq, hdS', hcw⟩ := core m dcol yr [hh, mi] hcols hdS hyvals
         refine ⟨?_, ?_, ?_, ?_⟩
         · rw [updateColumns_format, hfd, heq]
           exact ⟨m, dcol', yr, hh, mi, rfl, hm, hdS', hyvals, hhv, hmv⟩
         · rw [heq]
           intro c hc
           simp only [List.mem_cons] at hc
           rcases hc with rfl | rfl | rfl | rfl | rfl | hc
           · exact h.sel c (by rw [hcols]; simp)
           · exact hcw
           · exact h.sel c (by rw [hcols]; simp)
           · exact h.sel c (by rw [hcols]; simp)
           · exact h.sel c (by rw [hcols]; simp)
           · cases hc
         · rw [updateColumns_pending, hp]
           intro p hp2
           cases hp2
         · rw [updateColumns_pending, hp]
           simp)
    }
  · have heq : updateColumns s = s := by
      unfold updateColumns
      rw [if_neg hf]
    rw [heq]
    exact h

theorem WF_onDateChange {yMin yMax : ℤ} {s : PickerState}
    (h : WF yMin yMax s) (hp : s.pending = []) :
    WF yMin yMax (onDateChange s) := by
  unfold onDateChange
  simp only []
  have h1 : WF yMin yMax { s with currentDate := composeDate s } :=
    WF_congr h rfl rfl rfl
  have h2 := WF_updateColumns h1 (by simpa using hp)
  exact WF_congr h2 rfl rfl rfl

/-- Well-formedness survives modifying one column in a way that keeps its
values and selection, while only shrinking the pending queue. -/
theorem WF_of_fields {yMin yMax : ℤ} {s s' : PickerState}
    (h : WF yMin yMax s) (hf : s'.format = s.format)
    (f : WheelColumn → WheelColumn) (i : ℕ)
    (hfv : ∀ c, (f c).values = c.values)
    (hfs : ∀ c, (f c).selectedIndex = c.selectedIndex)
    (hc : s'.columns = modifyCol s.columns i f)
    (hsub : ∀ p ∈ s'.pending, p ∈ s.pending)
    (hlen : s'.pending.length ≤ s.pending.length) :
    WF yMin yMax s' := by
  have hmap : s'.columns.map (fun c => c.values)
      = s.columns.map (fun c => c.values) := by
    rw [hc]
    exact map_modifyIdx_invariant f (fun c => c.values) hfv i _
  refine ⟨?_, ?_, ?_, le_trans hlen h.pendOne⟩
  · rw [hf]
    exact colsShape_congr hmap h.shape
  · rw [hc]
    refine forall_mem_modifyIdx' h.sel (fun c hcget => ?_)
    have hm : c ∈ s.columns := List.get?_mem hcget
    obtain ⟨ha, hb⟩ := h.sel c hm
    exact ⟨by rw [hfs]; exact ha, by rw [hfs, hfv]; exact hb⟩
  · intro p hp
    exact pendOK_congr hmap (h.pend p (hsub p hp))

theorem WF_handleStart {yMin yMax : ℤ} {s : PickerState}
    (h : WF yMin yMax s) (i : ℕ) (y : ℚ) (t : ℤ) :
    WF yMin yMax (handleStart s i y t) := by
  unfold handleStart
  simp only []
  cases (getGesture s i).momentumId with
  | none =>
    exact WF_of_fields h rfl (fun c => { c with isScrolling := true }) i
      (fun c => rfl) (fun c => rfl) rfl (fun p hp => hp) le_rfl
  | some id =>
    exact WF_of_fields h rfl (fun c => { c with isScrolling := true }) i
      (fun c => rfl) (fun c => rfl) rfl
      (fun p hp => List.mem_of_mem_filter hp) (List.length_filter_le _ _)

theorem WF_handleMove {yMin yMax : ℤ} {s : PickerState}
    (h : WF yMin yMax s) (i : ℕ) (y : ℚ) (t : ℤ) :
    WF yMin yMax (handleMove s i y t) := by
  unfold handleMove
  split_ifs
  · exact h
  · exact WF_of_fields h rfl
      (fun c => { c with scrollTop :=
        (getGesture s i).startScrollTop + ((getGesture s i).startY - y) }) i
      (fun c => rfl) (fun c => rfl) rfl (fun p hp => hp) le_rfl

theorem WF_runAnimStep {yMin yMax : ℤ} {s : PickerState}
    (h : WF yMin yMax s) (hp : s.pending = [])
    {cb : AnimCallback} (hcb : pendOK s.columns cb) :
    WF yMin yMax (runAnimStep s cb) := by
  unfold runAnimStep
  simp only []
  split_ifs with hterm
  · refine WF_onDateChange ?_ (by simpa [commitColumn] using hp)
    have hmap : (modifyCol s.columns cb.columnIndex (fun c =>
        { c with scrollTop := cb.nearestScrollTop,
                 selectedIndex := cb.nearestIndex })).map (fun c => c.values)
        = s.columns.map (fun c => c.values) := by
      unfold modifyCol
      refine map_modifyIdx_invariant _ (fun (c : WheelColumn) => c.values) ?_ _ _
      intro c
      rfl
    refine ⟨?_, ?_, ?_, ?_⟩
    · exact colsShape_congr hmap h.shape
    · refine forall_mem_modifyIdx' h.sel (fun c hcget => ?_)
      exact ⟨hcb.1, hcb.2 c hcget⟩
    · intro p hp2
      rw [show (commitColumn s cb).pending = s.pending from rfl, hp] at hp2
      cases hp2
    · rw [show (commitColumn s cb).pending = s.pending from rfl, hp]
      simp
  · have hmap : (modifyCol s.columns cb.columnIndex (fun c =>
        { c with scrollTop := c.scrollTop +
            (cb.nearestScrollTop - (getCol s cb.columnIndex).scrollTop) * (3/20)
        })).map (fun c => c.values)
        = s.columns.map (fun c => c.values) := by
      unfold modifyCol
      refine map_modifyIdx_invariant _ (fun (c : WheelColumn) => c.values) ?_ _ _
      intro c
      rfl
    refine ⟨?_, ?_, ?_, ?_⟩
    · exact colsShape_congr hmap h.shape
    · refine forall_mem_modifyIdx' h.sel (fun c hcget => ?_)
      have hm : c ∈ s.columns := List.get?_mem hcget
      exact h.sel c hm
    · intro p hp2
      rw [show (bumpColumn s cb).pending
          = s.pending ++ [(s.nextFrameId, cb)] from rfl, hp] at hp2
      simp only [List.nil_append, List.mem_singleton] at hp2
      subst hp2
      exact pendOK_congr hmap hcb
    · rw [show (bumpColumn s cb).pending
          = s.pending ++ [(s.nextFrameId, cb)] from rfl, hp]
      simp

theorem WF_handleEnd {yMin yMax : ℤ} {s : PickerState}
    (h : WF yMin yMax s) (hp : s.pending = []) {i : ℕ}
    (hi : i < s.columns.length) :
    WF yMin yMax (handleEnd s i) := by
  unfold handleEnd
  simp only []
  have h1 : WF yMin yMax
      { s with columns := modifyCol s.columns i (fun c => { c with isScrolling := false }) } :=
    WF_of_fields h rfl (fun c => { c with isScrolling := false }) i
      (fun c => rfl) (fun c => rfl) rfl (fun p hp2 => hp2) le_rfl
  unfold animateToNearest
  simp only []
  set s1 : PickerState :=
    { s with columns := modifyCol s.columns i (fun c => { c with isScrolling := false }) }
    with hs1
  have hi1 : i < s1.columns.length := by
    rw [hs1]
    simp only []
    unfold modifyCol
    rw [length_modifyIdx]
    exact hi
  have hget : s1.columns.get? i = some (getCol s1 i) := by
    unfold getCol
    cases hg : s1.columns.get? i with
    | none => rw [List.get?_eq_none] at hg; omega
    | some c => rfl
  have hcw := h1.sel _ (List.get?_mem hget)
  have hn : 1 ≤ (getCol s1 i).values.length := by
    obtain ⟨ha, hb⟩ := hcw
    omega
  refine WF_runAnimStep h1 (by rw [hs1]; exact hp) ⟨?_, ?_⟩
  · exact animTarget_idx_nonneg _ _
  · intro c hc
    rw [hget] at hc
    injection hc with hc
    subst hc
    exact animTarget_idx_lt hn _

theorem WF_fireFrame {yMin yMax : ℤ} {s : PickerState}
    (h : WF yMin yMax s) : WF yMin yMax (fireFrame s) := by
  unfold fireFrame
  cases hp : s.pending with
  | nil => exact h
  | cons p rest =>
    have hone := h.pendOne
    rw [hp] at hone
    simp only [List.length_cons] at hone
    have hrest : rest = [] := List.eq_nil_of_length_eq_zero (by omega)
    subst hrest
    have h1 : WF yMin yMax { s with pending := [] } :=
      ⟨h.shape, h.sel, fun q hq => (by cases hq), by simp⟩
    have hcb : pendOK s.columns p.2 := h.pend p (by rw [hp]; simp)
    exact WF_runAnimStep h1 rfl hcb

theorem init_sel_bounds (vs : List Val) (v : Val) (hlen : 1 ≤ vs.length) :
    0 ≤ (if 0 ≤ jsIndexOf vs v then jsIndexOf vs v else 0) ∧
    (if 0 ≤ jsIndexOf vs v then jsIndexOf vs v else 0) < (vs.length : ℤ) := by
  split_ifs with h
  · exact ⟨h, jsIndexOf_lt_length vs v⟩
  · exact ⟨le_refl 0, by exact_mod_cast hlen⟩

theorem updateColumns_time {s : PickerState} (h : s.format = .time) :
    updateColumns s = s := by
  unfold updateColumns
  rw [if_neg (by simp [h])]

theorem WF_updateColumns_pre_date {yMin yMax : ℤ} {s : PickerState}
    (m dcol yr : WheelColumn)
    (hfmt : s.format = .date)
    (hcols : s.columns = [m, dcol, yr])
    (hp : s.pending = [])
    (hmv : m.values = monthNames) (hyrv : yr.values = yearValues yMin yMax)
    (hselm : ColWF m) (hselyr : ColWF yr)
    (L : ℕ) (hdv : dcol.values = dayValues L)
    (yv : ℤ) (hyread : valNum (jsGet yr.values yr.selectedIndex) = some yv)
    (hd0 : 0 ≤ dcol.selectedIndex)
    (hLD : L = daysInMonth yv m.selectedIndex → dcol.selectedIndex < (L : ℤ)) :
    WF yMin yMax (updateColumns s) := by
  obtain ⟨dcol', heq, hvals, hb0, hb1, hscr, hidx⟩ :=
    updateColumns_spec s m dcol yr [] (Or.inl hfmt) hcols L hdv yv hyread hd0 hLD
  refine ⟨?_, ?_, ?_, ?_⟩
  · rw [updateColumns_format, hfmt, heq]
    exact ⟨m, dcol', yr, rfl, hmv, ⟨_, daysInMonth_pos _ _, hvals⟩, hyrv⟩
  · rw [heq]
    intro c hc
    simp only [List.mem_cons, List.not_mem_nil, or_false] at hc
    rcases hc with rfl | rfl | rfl
    · exact hselm
    · exact ⟨hb0, by rw [hvals, length_dayValues]; exact hb1⟩
    · exact hselyr
  · rw [updateColumns_pending, hp]
    intro p hp2
    cases hp2
  · rw [updateColumns_pending, hp]
    simp

theorem WF_updateColumns_pre_datetime {yMin yMax : ℤ} {s : PickerState}
    (m dcol yr hh mi : WheelColumn)
    (hfmt : s.format = .datetime)
    (hcols : s.columns = [m, dcol, yr, hh, mi])
    (hp : s.pending = [])
    (hmv : m.values = monthNames) (hyrv : yr.values = yearValues yMin yMax)
    (hhv : hh.values = hourValues) (hmiv : mi.values = minuteValues)
    (hselm : ColWF m) (hselyr : ColWF yr) (hselhh : ColWF hh) (hselmi : ColWF mi)
    (L : ℕ) (hdv : dcol.values = dayValues L)
    (yv : ℤ) (hyread : valNum (jsGet yr.values yr.selectedIndex) = some yv)
    (hd0 : 0 ≤ dcol.selectedIndex)
    (hLD : L = daysInMonth yv m.selectedIndex → dcol.selectedIndex < (L : ℤ)) :
    WF yMin yMax (updateColumns s) := by
  obtain ⟨dcol', heq, hvals, hb0, hb1, hscr, hidx⟩ :=
    updateColumns_spec s m dcol yr [hh, mi] (Or.inr hfmt) hcols L hdv yv hyread
      hd0 hLD
  refine ⟨?_, ?_, ?_, ?_⟩
  · rw [updateColumns_format, hfmt, heq]
    exact ⟨m, dcol', yr, hh, mi, rfl, hmv, ⟨_, daysInMonth_pos _ _, hvals⟩,
      hyrv, hhv, hmiv⟩
  · rw [heq]
    intro c hc
    simp only [List.mem_cons, List.not_mem_nil, or_false] at hc
    rcases hc with rfl | rfl | rfl | rfl | rfl
    · exact hselm
    · exact ⟨hb0, by rw [hvals, length_dayValues]; exact hb1⟩
    · exact hselyr
    · exact hselhh
    · exact hselmi
  · rw [updateColumns_pending, hp]
    intro p hp2
    cases hp2
  · rw [updateColumns_pending, hp]
    simp

theorem WF_setDate {yMin yMax : ℤ} {s : PickerState} (h : WF yMin yMax s)
    (hp : s.pending = []) {d : ExtDate} (hd : ValidExtDate d)
    (hy1 : yMin ≤ d.year) (hy2 : d.year ≤ yMax) :
    WF yMin yMax (setDate s d) := by
  obtain ⟨hdm0, hdm1, hdd1, hdd2, hdh0, hdh1, hdmi0, hdmi1⟩ := hd
  have hsh := h.shape
  have hyi : 0 ≤ jsIndexOf (yearValues yMin yMax) (.num d.year) :=
    jsIndexOf_mem_nonneg (mem_yearValues hy1 hy2)
  have hylt := jsIndexOf_lt_length (yearValues yMin yMax) (.num d.year)
  have hyget := jsGet_jsIndexOf (l := yearValues yMin yMax) (v := .num d.year) hyi
  have hhidx := jsIndexOf_mem_nonneg (mem_hourValues hdh0 hdh1)
  have hmidx := jsIndexOf_mem_nonneg (mem_minuteValues hdmi0 hdmi1)
  have hhlt := jsIndexOf_lt_length hourValues (.str (pad2 d.hour))
  have hmlt := jsIndexOf_lt_length minuteValues (.str (pad2 d.minute))
  unfold setDate
  simp only []
  cases hf : s.format with
  | time =>
    rw [hf] at hsh
    obtain ⟨hh, mi, hcols, hhv, hmv⟩ := hsh
    rw [hcols]
    simp only [getCol, List.get?_cons_zero, List.get?_cons_succ,
      Option.getD_some, modifyCol, modifyIdx_zero, modifyIdx_succ]
    rw [hhv, hmv]
    rw [updateColumns_time rfl]
    unfold scrollToSelected
    simp only [List.map_cons, List.map_nil]
    refine ⟨⟨_, _, rfl, rfl, rfl⟩, ?_, ?_, ?_⟩
    · intro c hc
      simp only [List.mem_cons, List.not_mem_nil, or_false] at hc
      rcases hc with rfl | rfl
      · exact ⟨hhidx, hhlt⟩
      · exact ⟨hmidx, hmlt⟩
    · intro p hp2
      have hp3 : p ∈ s.pending := hp2
      rw [hp] at hp3
      cases hp3
    · show s.pending.length ≤ 1
      rw [hp]
      simp
  | date =>
    rw [hf] at hsh
    obtain ⟨m, dcol, yr, hcols, hmv, hdayS, hyrv⟩ := hsh
    obtain ⟨L, hL, hdv⟩ := hdayS
    rw [hcols]
    simp only [getCol, List.get?_cons_zero, List.get?_cons_succ,
      Option.getD_some, modifyCol, modifyIdx_zero, modifyIdx_succ]
    rw [hyrv, if_pos hyi]
    unfold scrollToSelected
    simp only [List.map_cons, List.map_nil]
    refine WF_updateColumns_pre_date _ _ _ rfl rfl hp hmv rfl
      ⟨hdm0, ?_⟩ ⟨hyi, hylt⟩ L hdv d.year ?_ ?_ ?_
    · show d.month < (m.values.length : ℤ)
      rw [hmv, length_monthNames]
      exact_mod_cast hdm1
    · show valNum (jsGet (yearValues yMin yMax)
        (jsIndexOf (yearValues yMin yMax) (.num d.year))) = some d.year
      rw [hyget]
      rfl
    · show (0 : ℤ) ≤ d.day - 1
      omega
    · intro hLD2
      show d.day - 1 < (L : ℤ)
      have h3 : L = daysInMonth d.year d.month := hLD2
      omega
  | datetime =>
    rw [hf] at hsh
    obtain ⟨cm, cd, cy, ch, cmin, hcols, hmv, hdayS, hyrv, hhv, hmiv⟩ := hsh
    obtain ⟨L, hL, hdv⟩ := hdayS
    obtain ⟨v1, e1, t1, b1⟩ := cm
    obtain ⟨v2, e2, t2, b2⟩ := cd
    obtain ⟨v3, e3, t3, b3⟩ := cy
    obtain ⟨v4, e4, t4, b4⟩ := ch
    obtain ⟨v5, e5, t5, b5⟩ := cmin
    simp only [] at hmv hdv hyrv hhv hmiv
    subst hmv hdv hyrv hhv hmiv
    rw [hcols]
    simp only [getCol, List.get?_cons_zero, List.get?_cons_succ,
      Option.getD_some, modifyCol, modifyIdx_zero, modifyIdx_succ]
    rw [if_pos hyi]
    unfold scrollToSelected
    simp only [List.map_cons, List.map_nil]
    refine WF_updateColumns_pre_datetime _ _ _ _ _ rfl rfl hp rfl rfl rfl rfl
      ⟨hdm0, ?_⟩ ⟨hyi, hylt⟩ ⟨hhidx, hhlt⟩ ⟨hmidx, hmlt⟩ L rfl d.year ?_ ?_ ?_
    · show d.month < ((monthNames : List Val).length : ℤ)
      rw [length_monthNames]
      exact_mod_cast hdm1
    · show valNum (jsGet (yearValues yMin yMax)
        (jsIndexOf (yearValues yMin yMax) (.num d.year))) = some d.year
      rw [hyget]
      rfl
    · show (0 : ℤ) ≤ d.day - 1
      omega
    · intro hLD2
      show d.day - 1 < (L : ℤ)
      have h3 : L = daysInMonth d.year d.month := hLD2
      omega

theorem WF_mkPicker (fmt : Format) (d0 : ExtDate) (yMin yMax : ℤ)
    (hy : yMin ≤ yMax) : WF yMin yMax (mkPicker fmt d0 yMin yMax) := by
  have hylen : 1 ≤ (yearValues yMin yMax).length := by
    rw [length_yearValues]
    omega
  have hdlen : 1 ≤ (dayValues (daysInMonth d0.year d0.month)).length := by
    rw [length_dayValues]
    exact daysInMonth_pos _ _
  have hmlen : 1 ≤ monthNames.length := by rw [length_monthNames]; omega
  have hhlen : 1 ≤ hourValues.length := by rw [length_hourValues]; omega
  have hmilen : 1 ≤ minuteValues.length := by rw [length_minuteValues]; omega
  unfold mkPicker columnConfigs
  refine WF_updateColumns ?_ rfl
  cases fmt with
  | date =>
    rw [if_pos (Or.inl rfl), if_neg (by simp)]
    simp only [List.append_nil, List.map_cons, List.map_nil]
    refine ⟨⟨_, _, _, rfl, rfl, ⟨_, daysInMonth_pos d0.year d0.month, rfl⟩, rfl⟩,
      ?_, ?_, ?_⟩
    · intro c hc
      simp only [List.mem_cons, List.not_mem_nil, or_false] at hc
      rcases hc with rfl | rfl | rfl
      · exact init_sel_bounds monthNames _ hmlen
      · exact init_sel_bounds _ _ hdlen
      · exact init_sel_bounds _ _ hylen
    · intro p hp2
      cases hp2
    · simp
  | datetime =>
    rw [if_pos (Or.inr rfl), if_pos (Or.inl rfl)]
    simp only [List.cons_append, List.nil_append, List.map_cons, List.map_nil]
    refine ⟨⟨_, _, _, _, _, rfl, rfl,
      ⟨_, daysInMonth_pos d0.year d0.month, rfl⟩, rfl, rfl, rfl⟩, ?_, ?_, ?_⟩
    · intro c hc
      simp only [List.mem_cons, List.not_mem_nil, or_false] at hc
      rcases hc with rfl | rfl | rfl | rfl | rfl
      · exact init_sel_bounds monthNames _ hmlen
      · exact init_sel_bounds _ _ hdlen
      · exact init_sel_bounds _ _ hylen
      · exact init_sel_bounds hourValues _ hhlen
      · exact init_sel_bounds minuteValues _ hmilen
    · intro p hp2
      cases hp2
    · simp
  | time =>
    rw [if_neg (by simp), if_pos (Or.inr rfl)]
    simp only [List.nil_append, List.map_cons, List.map_nil]
    refine ⟨⟨_, _, rfl, rfl, rfl⟩, ?_, ?_, ?_⟩
    · intro c hc
      simp only [List.mem_cons, List.not_mem_nil, or_false] at hc
      rcases hc with rfl | rfl
      · exact init_sel_bounds hourValues _ hhlen
      · exact init_sel_bounds minuteValues _ hmilen
    · intro p hp2
      cases hp2
    · simp

/-- The per-event side conditions of the amended C8 trace: a drag starts or
ends, and `setDate` runs, only while no animation frame is pending; `setDate`
receives a calendar-valid date whose year is inside the configured bounds;
drags address existing columns. -/
def OpOK (yMin yMax : ℤ) (s : PickerState) : PickerOp → Prop
  | .start i _ _ => s.pending = [] ∧ i < s.columns.length
  | .move i _ _ => i < s.columns.length
  | .finish i => s.pending = [] ∧ i < s.columns.length
  | .frame => True
  | .set d => s.pending = [] ∧ ValidExtDate d ∧ yMin ≤ d.year ∧ d.year ≤ yMax

/-- An event sequence whose every event satisfies `OpOK` in the state where
it fires. -/
inductive TraceOK (yMin yMax : ℤ) : PickerState → List PickerOp → Prop
  | nil (s : PickerState) : TraceOK yMin yMax s []
  | cons (s : PickerState) (op : PickerOp) (ops : List PickerOp) :
      OpOK yMin yMax s op → TraceOK yMin yMax (applyOp s op) ops →
      TraceOK yMin yMax s (op :: ops)

theorem WF_applyOp {yMin yMax : ℤ} {s : PickerState} (h : WF yMin yMax s)
    {op : PickerOp} (hop : OpOK yMin yMax s op) :
    WF yMin yMax (applyOp s op) := by
  cases op with
  | start i y t => exact WF_handleStart h i y t
  | move i y t => exact WF_handleMove h i y t
  | finish i => exact WF_handleEnd h hop.1 hop.2
  | frame => exact WF_fireFrame h
  | set d => exact WF_setDate h hop.1 hop.2.1 hop.2.2.1 hop.2.2.2

theorem WF_applyOps {yMin yMax : ℤ} {s : PickerState} (h : WF yMin yMax s)
    {ops : List PickerOp} (hops : TraceOK yMin yMax s ops) :
    WF yMin yMax (applyOps s ops) := by
  induction hops with
  | nil s2 => exact h
  | cons s2 op ops hop htail ih => exact ih (WF_applyOp h hop)

instance (s : PickerState) : Decidable (DaySynced s) := by
  unfold DaySynced
  infer_instance

instance (yMin yMax : ℤ) (s : PickerState) (op : PickerOp) :
    Decidable (OpOK yMin yMax s op) := by
  cases op <;> (unfold OpOK; infer_instance)

/-- C8 (amended): For every picker built with `minDate ≤ maxDate` and every
event sequence in which drags start and end, and `setDate` runs, only while
no momentum animation is in flight, and every `setDate` argument is a
calendar-valid date whose year lies within the configured bounds, every
column always satisfies `0 ≤ selectedIndex < len(values)` — in particular
after every settle; it is never `-1` and never out of range. -/
theorem C8_amended_selection_in_range (fmt : Format) (d0 : ExtDate)
    (yMin yMax : ℤ) (ops : List PickerOp) (hy : yMin ≤ yMax)
    (hops : TraceOK yMin yMax (mkPicker fmt d0 yMin yMax) ops) :
    ∀ c ∈ (applyOps (mkPicker fmt d0 yMin yMax) ops).columns,
      0 ≤ c.selectedIndex ∧ c.selectedIndex < (c.values.length : ℤ) :=
  (WF_applyOps (WF_mkPicker fmt d0 yMin yMax hy) hops).sel

section ConcreteEvaluation

attribute [local semireducible] Rat.add Rat.sub Rat.mul Rat.inv

/-- A picker built at Jan 31 2023 with year bounds 2020–2030
(`format: 'date'`). -/
def pJan31 : PickerState := mkPicker .date ⟨2023, 0, 31, 0, 0⟩ 2020 2030

/-- A picker built at Feb 10 2023 with year bounds 2020–2030
(`format: 'date'`). -/
def pFeb10 : PickerState := mkPicker .date ⟨2023, 1, 10, 0, 0⟩ 2020 2030

/-- C1 (failing run): with day 31 selected, dragging the month column one
slot (January → February) and letting it settle makes the source compose
`new Date(2023, 1, 31)` — day 31 in February — store it, and hand exactly
this composition to `onChange`; the day column is regenerated to 28 entries
only afterwards. -/
theorem C1_invalid_triple_reaches_onChange :
    (applyOps pJan31
        [.start 0 100 0, .move 0 60 10, .move 0 60 20, .finish 0]).onChangeLog
      = [.fromYMD 2023 1 31] ∧
    getDate (applyOps pJan31
        [.start 0 100 0, .move 0 60 10, .move 0 60 20, .finish 0])
      = .fromYMD 2023 1 31 ∧
    daysInMonth 2023 1 = 28 ∧
    (getCol (applyOps pJan31
        [.start 0 100 0, .move 0 60 10, .move 0 60 20, .finish 0]) 1).values.length
      = 28 := by
  decide

/-- C2 (counterexample): two consecutive drags with zero net displacement
and zero velocity on the settled day column leave `selectedIndex` at 9 and
recompose the identical date, yet `onChange` fires once per drag (twice in
total) instead of zero times. -/
theorem C2_counterexample_null_drag_fires :
    (applyOps pFeb10 [.start 1 100 0, .finish 1, .start 1 100 30,
        .finish 1]).onChangeLog
      = [.fromYMD 2023 1 10, .fromYMD 2023 1 10] ∧
    (getCol (applyOps pFeb10 [.start 1 100 0, .finish 1, .start 1 100 30,
        .finish 1]) 1).selectedIndex = 9 ∧
    (getCol pFeb10 1).selectedIndex = 9 ∧
    (applyOps pFeb10 [.start 1 100 0, .finish 1, .start 1 100 30,
        .finish 1]).currentDate = .fromYMD 2023 1 10 := by
  decide

/-- The Feb-10 picker after one settle on the day column (its stored date is
now itself a composition of the current selections). -/
def pFeb10Settled : PickerState := applyOps pFeb10 [.start 1 100 0, .finish 1]

/-- Witness for the amended C2 on a concrete settled picker. -/
theorem C2_amended_witness :
    (1 < pFeb10Settled.columns.length ∧
     0 ≤ (getCol pFeb10Settled 1).selectedIndex ∧
     (getCol pFeb10Settled 1).selectedIndex
        < ((getCol pFeb10Settled 1).values.length : ℤ) ∧
     (getCol pFeb10Settled 1).scrollTop
        = (((getCol pFeb10Settled 1).selectedIndex : ℤ) : ℚ) * itemHeight ∧
     (getCol pFeb10Settled 1).isScrolling = false ∧
     DaySynced pFeb10Settled ∧
     pFeb10Settled.currentDate = composeDate pFeb10Settled) ∧
    ((applyOps pFeb10Settled [.start 1 50 40, .finish 1]).columns
        = pFeb10Settled.columns ∧
     (applyOps pFeb10Settled [.start 1 50 40, .finish 1]).currentDate
        = pFeb10Settled.currentDate ∧
     (applyOps pFeb10Settled [.start 1 50 40, .finish 1]).onChangeLog
        = pFeb10Settled.onChangeLog ++ [pFeb10Settled.currentDate] ∧
     (handleMove pFeb10Settled 1 77 99).onChangeLog = pFeb10Settled.onChangeLog ∧
     (∀ cb : AnimCallback,
        ¬ |cb.nearestScrollTop - (getCol pFeb10Settled cb.columnIndex).scrollTop|
            < 1/2 →
        (runAnimStep pFeb10Settled cb).onChangeLog = pFeb10Settled.onChangeLog)) :=
  ⟨⟨by decide, by decide, by decide, by decide, by decide, by decide, by decide⟩,
   C2_amended_settle_fires_once pFeb10Settled 1 50 77 40 99 (by decide)
     (by decide) (by decide) (by decide) (by decide) (by decide) (by decide)⟩

/-- The Jan-31 picker with a day-column momentum animation still in flight
(one frame pending, ten pixels away from its snap target). -/
def pPendingAnim : PickerState :=
  applyOps pJan31 [.start 1 100 0, .move 1 90 10, .move 1 90 20, .finish 1]

/-- C3 (failing run): starting a new drag while the day-column animation is
in flight does not cancel it — `momentumId` is still `null`, the pending
frame queue is untouched, and delivering the pending frame moves the
column's offset mid-drag. -/
theorem C3_stale_animation_survives_drag :
    pPendingAnim.pending.length = 1 ∧
    (getGesture (applyOp pPendingAnim (.start 1 50 30)) 1).momentumId = none ∧
    (applyOp pPendingAnim (.start 1 50 30)).pending = pPendingAnim.pending ∧
    (getCol (applyOp pPendingAnim (.start 1 50 30)) 1).isScrolling = true ∧
    (getCol (applyOp (applyOp pPendingAnim (.start 1 50 30)) .frame) 1).scrollTop
      ≠ (getCol (applyOp pPendingAnim (.start 1 50 30)) 1).scrollTop := by
  decide

/-- A hand-rolled state for the C4 witness: February selected, day column
still `1..31` with day 31 selected, year 2023 selected. -/
def c4State : PickerState :=
  { format := .date
    columns :=
      [{ values := monthNames, selectedIndex := 1, scrollTop := 40, isScrolling := false },
       { values := dayValues 31, selectedIndex := 30, scrollTop := 1200, isScrolling := false },
       { values := yearValues 2020 2030, selectedIndex := 3, scrollTop := 120, isScrolling := false }]
    currentDate := .fromYMD 2023 1 31
    gestures := [initGesture, initGesture, initGesture]
    pending := []
    nextFrameId := 0
    onChangeLog := [] }

/-- Witness for C4: switching to February 2023 with day 31 selected
regenerates the day column to 28 entries and clamps the selection to 28. -/
theorem C4_day_column_regeneration_witness :
    daysInMonth 2024 1 = 29 ∧ daysInMonth 2023 1 = 28 ∧
    daysInMonth 2023 3 = 30 ∧ daysInMonth 2023 0 = 31 ∧
    ∃ dcol', updateColumns c4State
        = { c4State with columns :=
            [{ values := monthNames, selectedIndex := 1, scrollTop := 40,
               isScrolling := false }, dcol',
             { values := yearValues 2020 2030, selectedIndex := 3,
               scrollTop := 120, isScrolling := false }] } ∧
      dcol'.values.length = daysInMonth 2023 1 ∧
      dcol'.values = dayValues (daysInMonth 2023 1) ∧
      jsGet dcol'.values dcol'.selectedIndex
        = some (.num (if (31 : ℤ) ≤ (daysInMonth 2023 1 : ℤ) then 31
                      else (daysInMonth 2023 1 : ℤ))) :=
  C4_day_column_regeneration c4State
    { values := monthNames, selectedIndex := 1, scrollTop := 40, isScrolling := false }
    { values := dayValues 31, selectedIndex := 30, scrollTop := 1200, isScrolling := false }
    { values := yearValues 2020 2030, selectedIndex := 3, scrollTop := 120, isScrolling := false }
    [] (Or.inl rfl) rfl 31 rfl 31 (by decide) (by decide) (by decide)
    2023 (by decide)

/-- Witness for C5 on the settled day column of the Feb-10 picker with the
snap target 360 (its own settled offset). -/
theorem C5_momentum_snap_witness :
    (1 ≤ (getCol pFeb10 1).values.length ∧ 1 < pFeb10.columns.length ∧
     |(animTarget (getCol pFeb10 1).values.length 360).2
        - (getCol pFeb10 1).scrollTop| < 1/2) ∧
    (0 ≤ clampedTarget (getCol pFeb10 1).values.length 360 ∧
     clampedTarget (getCol pFeb10 1).values.length 360
        ≤ (((getCol pFeb10 1).values.length : ℚ) - 1) * itemHeight ∧
     (animTarget (getCol pFeb10 1).values.length 360).1
        = jsRound (clampedTarget (getCol pFeb10 1).values.length 360 / itemHeight) ∧
     (animTarget (getCol pFeb10 1).values.length 360).2
        = (((animTarget (getCol pFeb10 1).values.length 360).1 : ℤ) : ℚ) * itemHeight ∧
     animateToNearest pFeb10 1 360
        = runAnimStep pFeb10 ⟨1, (animTarget (getCol pFeb10 1).values.length 360).2,
            (animTarget (getCol pFeb10 1).values.length 360).1⟩ ∧
     runAnimStep pFeb10 ⟨1, (animTarget (getCol pFeb10 1).values.length 360).2,
        (animTarget (getCol pFeb10 1).values.length 360).1⟩
        = onDateChange (commitColumn pFeb10
            ⟨1, (animTarget (getCol pFeb10 1).values.length 360).2,
              (animTarget (getCol pFeb10 1).values.length 360).1⟩) ∧
     (getCol (commitColumn pFeb10
        ⟨1, (animTarget (getCol pFeb10 1).values.length 360).2,
          (animTarget (getCol pFeb10 1).values.length 360).1⟩) 1).scrollTop
        = (animTarget (getCol pFeb10 1).values.length 360).2 ∧
     (getCol (commitColumn pFeb10
        ⟨1, (animTarget (getCol pFeb10 1).values.length 360).2,
          (animTarget (getCol pFeb10 1).values.length 360).1⟩) 1).selectedIndex
        = (animTarget (getCol pFeb10 1).values.length 360).1) :=
  ⟨⟨by decide, by decide, by decide⟩,
   C5_momentum_snap pFeb10 1 360 (by decide) (by decide) (by decide)⟩

/-- C8 (counterexample): two concrete violations of the selection
invariant. (a) `setDate(Feb 29 2104)` — a valid leap date whose year is
outside the 2020–2030 bounds — leaves the day column of the Feb-2023 picker
with `selectedIndex = 28` over only 28 values, and a subsequent settle on
the month column does not repair it. (b) A stale day-column animation that
survives a month settle (which shrinks the day column to 28 entries)
finally commits its captured `selectedIndex = 30`, out of range. -/
theorem C8_counterexample_out_of_range :
    ((getCol (applyOps pFeb10 [.set ⟨2104, 1, 29, 0, 0⟩, .start 0 100 0,
        .finish 0]) 1).selectedIndex = 28 ∧
     (getCol (applyOps pFeb10 [.set ⟨2104, 1, 29, 0, 0⟩, .start 0 100 0,
        .finish 0]) 1).values.length = 28) ∧
    ((getCol (applyOps pPendingAnim ([.start 0 100 100, .move 0 60 110,
        .move 0 60 120, .finish 0] ++ List.replicate 40 .frame)) 1).selectedIndex
      = 30 ∧
     (getCol (applyOps pPendingAnim ([.start 0 100 100, .move 0 60 110,
        .move 0 60 120, .finish 0] ++ List.replicate 40 .frame)) 1).values.length
      = 28) := by
  decide

/-- Witness for the amended C8: an in-bounds `setDate` of a leap date
followed by a settle, with no overlapping animation. -/
theorem C8_amended_witness :
    ((2020 : ℤ) ≤ 2030) ∧
    (∀ c ∈ (applyOps (mkPicker .date ⟨2023, 1, 10, 0, 0⟩ 2020 2030)
        [.set ⟨2024, 1, 29, 0, 0⟩, .start 1 100 0, .finish 1]).columns,
      0 ≤ c.selectedIndex ∧ c.selectedIndex < (c.values.length : ℤ)) :=
  ⟨by norm_num,
   C8_amended_selection_in_range .date ⟨2023, 1, 10, 0, 0⟩ 2020 2030
     [.set ⟨2024, 1, 29, 0, 0⟩, .start 1 100 0, .finish 1] (by norm_num)
     (TraceOK.cons _ _ _ (by decide)
       (TraceOK.cons _ _ _ (by decide)
         (TraceOK.cons _ _ _ (by decide)
           (TraceOK.nil _))))⟩

/-- C9 (counterexample): on a date-only picker, `setDate` with a date
carrying 14:30 as time-of-day stores that very date, and `getDate` returns
it with the time intact — nothing is discarded. -/
theorem C9_counterexample_time_kept :
    pFeb10.format = .date ∧
    getDate (setDate pFeb10 ⟨2023, 1, 10, 14, 30⟩)
      = .external ⟨2023, 1, 10, 14, 30⟩ ∧
    (⟨2023, 1, 10, 14, 30⟩ : ExtDate).hour = 14 ∧ (14 : ℤ) ≠ 0 := by
  decide

/-- Witness for C10 on the Feb-10 picker, with one terminal and one
non-terminal callback. -/
theorem C10_setDate_silent_witness :
    (setDate pFeb10 ⟨2023, 1, 10, 14, 30⟩).onChangeLog = pFeb10.onChangeLog ∧
    (handleStart pFeb10 0 5 6).onChangeLog = pFeb10.onChangeLog ∧
    (handleMove pFeb10 0 5 7).onChangeLog = pFeb10.onChangeLog ∧
    (¬ |(⟨1, 900, 22⟩ : AnimCallback).nearestScrollTop
        - (getCol pFeb10 (⟨1, 900, 22⟩ : AnimCallback).columnIndex).scrollTop| < 1/2) ∧
    (runAnimStep pFeb10 ⟨1, 900, 22⟩).onChangeLog = pFeb10.onChangeLog ∧
    (|(⟨1, 360, 9⟩ : AnimCallback).nearestScrollTop
        - (getCol pFeb10 (⟨1, 360, 9⟩ : AnimCallback).columnIndex).scrollTop| < 1/2) ∧
    (runAnimStep pFeb10 ⟨1, 360, 9⟩).onChangeLog
      = pFeb10.onChangeLog ++ [composeDate (commitColumn pFeb10 ⟨1, 360, 9⟩)] :=
  ⟨(C10_setDate_silent pFeb10 pFeb10 ⟨2023, 1, 10, 14, 30⟩ 0 5 6 ⟨1, 900, 22⟩).1,
   (C10_setDate_silent pFeb10 pFeb10 ⟨2023, 1, 10, 14, 30⟩ 0 5 6 ⟨1, 900, 22⟩).2.1,
   (C10_setDate_silent pFeb10 pFeb10 ⟨2023, 1, 10, 14, 30⟩ 0 5 7 ⟨1, 900, 22⟩).2.2.1,
   by decide,
   (C10_setDate_silent pFeb10 pFeb10 ⟨2023, 1, 10, 14, 30⟩ 0 5 6
     ⟨1, 900, 22⟩).2.2.2.1 (by decide),
   by decide,
   (C10_setDate_silent pFeb10 pFeb10 ⟨2023, 1, 10, 14, 30⟩ 0 5 6
     ⟨1, 360, 9⟩).2.2.2.2 (by decide)⟩

end ConcreteEvaluation

end WheelPicker
